import Mathlib

/-
  Verification of calcam's ray-tracing module (src/calcam/raytrace.py).

  The module is embedded shallowly:
  * numpy floating-point scalars are modelled exactly by the type `Fl`:
    rational values, values of the form c·√q (as produced by `np.sqrt`),
    the two infinities and NaN.  Rounding is not modelled: arithmetic is
    exact, NaN/infinity propagation follows IEEE-754 semantics.
  * numpy ndarrays are modelled by `NDArray`: a shape together with the
    C-order (row-major) data list.  The source's `order='F'` reshapes are
    modelled explicitly by `flattenF` / `unflattenF`.
  * the external collaborators (camera fit results, the VTK cell locator,
    the coordinate transformer's conversion functions) are opaque function
    parameters, as they live outside this module.
  * file I/O is modelled by values: `save` produces the netCDF file content
    as an `NCFile` value (or an error, in which case no file is produced),
    `load` consumes one.
-/

namespace Raytrace

/- `Rat.add/mul/sub/inv` are `@[irreducible]` in Batteries, which blocks
evaluation of concrete instances by `decide`; restore the default
reducibility for this file (their values are unchanged). -/
attribute [local semireducible] Rat.add Rat.mul Rat.sub Rat.inv

/-- Largest `j ≤ k` with `j * j ≤ n` (0 if none), by downward scan; the
recursion is structural so that concrete instances evaluate. -/
def sqrtAux (n : Nat) : Nat → Nat
  | 0 => 0
  | k + 1 => if (k + 1) * (k + 1) ≤ n then k + 1 else sqrtAux n k

/-- Integer square root (equal to `Nat.sqrt`, but evaluable by `decide`). -/
def natSqrt (n : Nat) : Nat := sqrtAux n n

lemma sqrtAux_eq (n : Nat) : ∀ k, Nat.sqrt n ≤ k → sqrtAux n k = Nat.sqrt n
  | 0, hk => by
      have h0 : Nat.sqrt n = 0 := Nat.le_zero.mp hk
      simp [sqrtAux, h0]
  | k + 1, hk => by
      unfold sqrtAux
      by_cases h : (k + 1) * (k + 1) ≤ n
      · rw [if_pos h]
        exact Nat.le_antisymm (Nat.le_sqrt.mpr h) hk
      · rw [if_neg h]
        refine sqrtAux_eq n k ?_
        have h2 : Nat.sqrt n ≠ k + 1 := by
          intro he
          exact h (he ▸ Nat.sqrt_le n)
        omega

lemma natSqrt_eq (n : Nat) : natSqrt n = Nat.sqrt n :=
  sqrtAux_eq n n (Nat.sqrt_le_self n)

/-- `ratSqrt q` is the rational candidate square root of `q` (Mathlib's
`Rat.sqrt`, expressed through the evaluable `natSqrt`), exact whenever `q`
is the square of a rational. -/
def ratSqrt (q : ℚ) : ℚ := mkRat (Int.ofNat (natSqrt q.num.toNat)) (natSqrt q.den)

lemma ratSqrt_eq_sqrt (q : ℚ) : ratSqrt q = Rat.sqrt q := by
  unfold ratSqrt Rat.sqrt
  rw [natSqrt_eq, natSqrt_eq]
  rfl

/-- `q` is the square of a (nonnegative) rational.  Since `ratSqrt q ≥ 0`,
this is automatically false for `q < 0`. -/
def isSqRat (q : ℚ) : Prop := ratSqrt q * ratSqrt q = q

instance : DecidablePred isSqRat := fun q => by unfold isSqRat; infer_instance

/-- Idealized IEEE floating-point scalar: `fin a` is the rational `a`,
`rt c q` is the real number `c * √q` (produced by `Fl.sqrtF` and by
divisions; meaningful for `c ≠ 0` and `q > 0` not a rational square),
plus the two infinities and NaN.  Arithmetic is exact (no rounding);
combinations that leave this fragment (e.g. rational + irrational, which
never arise from the rational-valued data the module manipulates) fall
back to `nan` and are marked "junk" below. -/
inductive Fl where
  | fin : ℚ → Fl
  | rt : ℚ → ℚ → Fl
  | pinf : Fl
  | ninf : Fl
  | nan : Fl
deriving DecidableEq

/-- `np.isnan`. -/
def Fl.isnan : Fl → Bool
  | nan => true
  | _ => false

/-- IEEE finiteness (`np.isfinite`): true for rationals and `c·√q` values. -/
def Fl.isfinite : Fl → Bool
  | fin _ => true
  | rt _ _ => true
  | _ => false

def Fl.neg : Fl → Fl
  | fin a => fin (-a)
  | rt c q => rt (-c) q
  | pinf => ninf
  | ninf => pinf
  | nan => nan

def Fl.add : Fl → Fl → Fl
  | nan, _ => nan
  | _, nan => nan
  | pinf, ninf => nan
  | ninf, pinf => nan
  | pinf, _ => pinf
  | _, pinf => pinf
  | ninf, _ => ninf
  | _, ninf => ninf
  | fin a, fin b => fin (a + b)
  | fin a, rt c q => if a = 0 then rt c q else nan      -- junk: rational + irrational
  | rt c q, fin a => if a = 0 then rt c q else nan      -- junk: irrational + rational
  | rt c q, rt d p =>
      if q = p then (if c + d = 0 then fin 0 else rt (c + d) q)
      else nan                                          -- junk: √q + √p, q ≠ p

def Fl.sub (a b : Fl) : Fl := a.add b.neg

def Fl.mul : Fl → Fl → Fl
  | nan, _ => nan
  | _, nan => nan
  | fin a, fin b => fin (a * b)
  | fin a, rt c q => if a = 0 then fin 0 else rt (a * c) q
  | rt c q, fin a => if a = 0 then fin 0 else rt (a * c) q
  | rt c q, rt d p =>
      if q = p then fin (c * d * q)
      else if isSqRat (q * p) then fin (c * d * ratSqrt (q * p)) else rt (c * d) (q * p)
  | pinf, fin a => if a = 0 then nan else if 0 < a then pinf else ninf
  | fin a, pinf => if a = 0 then nan else if 0 < a then pinf else ninf
  | ninf, fin a => if a = 0 then nan else if 0 < a then ninf else pinf
  | fin a, ninf => if a = 0 then nan else if 0 < a then ninf else pinf
  | pinf, rt c _ => if 0 < c then pinf else if c < 0 then ninf else nan
  | rt c _, pinf => if 0 < c then pinf else if c < 0 then ninf else nan
  | ninf, rt c _ => if 0 < c then ninf else if c < 0 then pinf else nan
  | rt c _, ninf => if 0 < c then ninf else if c < 0 then pinf else nan
  | pinf, pinf => pinf
  | pinf, ninf => ninf
  | ninf, pinf => ninf
  | ninf, ninf => pinf

def Fl.div : Fl → Fl → Fl
  | nan, _ => nan
  | _, nan => nan
  | fin a, fin b =>
      if b = 0 then (if a = 0 then nan else if 0 < a then pinf else ninf) else fin (a / b)
  | fin a, rt c q =>
      if c = 0 ∨ q ≤ 0 then nan                          -- junk: division by a junk `rt`
      else if a = 0 then fin 0 else rt (a / (c * q)) q
  | rt c q, fin b =>
      if b = 0 then (if 0 < c then pinf else if c < 0 then ninf else nan)
      else rt (c / b) q
  | rt c q, rt d p =>
      if d = 0 ∨ p ≤ 0 then nan                          -- junk: division by a junk `rt`
      else if q = p then fin (c / d)
      else if isSqRat (q * p) then fin (c / (d * p) * ratSqrt (q * p))
      else rt (c / (d * p)) (q * p)
  | fin _, pinf => fin 0
  | fin _, ninf => fin 0
  | rt _ _, pinf => fin 0
  | rt _ _, ninf => fin 0
  | pinf, fin b => if 0 ≤ b then pinf else ninf
  | ninf, fin b => if 0 ≤ b then ninf else pinf
  | pinf, rt c _ => if 0 < c then pinf else if c < 0 then ninf else nan
  | ninf, rt c _ => if 0 < c then ninf else if c < 0 then pinf else nan
  | pinf, pinf => nan
  | pinf, ninf => nan
  | ninf, pinf => nan
  | ninf, ninf => nan

/-- `np.sqrt`. For a nonnegative rational `q` the result is exact: the
rational square root when `q` is a rational square, and the symbolic
value `√q` (`rt 1 q`) otherwise. -/
def Fl.sqrtF : Fl → Fl
  | nan => nan
  | pinf => pinf
  | ninf => nan
  | fin q => if q < 0 then nan else if isSqRat q then fin (ratSqrt q) else rt 1 q
  | rt _ _ => nan                                        -- junk: √(c·√q) never arises

/-- IEEE `<=` as a Bool: any comparison involving NaN is false; `rt` values
are compared exactly through their squares (sign analysis first). -/
def Fl.le : Fl → Fl → Bool
  | nan, _ => false
  | _, nan => false
  | ninf, _ => true
  | _, pinf => true
  | pinf, _ => false
  | _, ninf => false
  | fin a, fin b => decide (a ≤ b)
  | fin a, rt c q =>
      if 0 < c then decide (a ≤ 0 ∨ a * a ≤ c * c * q)
      else if c < 0 then decide (a < 0 ∧ c * c * q ≤ a * a)
      else decide (a ≤ 0)
  | rt c q, fin b =>
      if 0 < c then decide (0 ≤ b ∧ c * c * q ≤ b * b)
      else if c < 0 then decide (0 ≤ b ∨ b * b ≤ c * c * q)
      else decide (0 ≤ b)
  | rt c q, rt d p =>
      if 0 < c then (if 0 < d then decide (c * c * q ≤ d * d * p) else false)
      else if c < 0 then
        (if 0 < d then true else if d < 0 then decide (d * d * p ≤ c * c * q) else true)
      else (if d < 0 then false else true)

/-- 3-vectors of scalars (one row of the `[...,3]` coordinate arrays). -/
abbrev Vec3 := Fl × Fl × Fl

def vadd (a b : Vec3) : Vec3 := (a.1.add b.1, a.2.1.add b.2.1, a.2.2.add b.2.2)

def vsmul (c : Fl) (v : Vec3) : Vec3 := (c.mul v.1, c.mul v.2.1, c.mul v.2.2)

def nan3 : Vec3 := (Fl.nan, Fl.nan, Fl.nan)

/-- All three components are IEEE-finite. -/
def vecFinite (v : Vec3) : Bool := v.1.isfinite && v.2.1.isfinite && v.2.2.isfinite

lemma ratSqrt_nonneg (q : ℚ) : 0 ≤ ratSqrt q := by
  rw [ratSqrt_eq_sqrt]; exact Rat.sqrt_nonneg q

lemma ratSqrt_mul_self (s : ℚ) (hs : 0 ≤ s) : ratSqrt (s * s) = s := by
  rw [ratSqrt_eq_sqrt, Rat.sqrt_eq, abs_of_nonneg hs]

lemma isSqRat_sq (s : ℚ) : isSqRat (s * s) := by
  unfold isSqRat; rw [ratSqrt_eq_sqrt, Rat.sqrt_eq, abs_mul_abs_self]

lemma sqrtF_fin (q : ℚ) (hq : 0 ≤ q) :
    Fl.sqrtF (Fl.fin q) = if isSqRat q then Fl.fin (ratSqrt q) else Fl.rt 1 q := by
  simp [Fl.sqrtF, not_lt.mpr hq]

/-- `np.sqrt` is order-faithful on nonnegative rationals: comparing two
square roots through `Fl.le` is comparing the radicands. -/
lemma le_sqrtF_sqrtF (a b : ℚ) (ha : 0 ≤ a) (hb : 0 ≤ b) :
    Fl.le (Fl.sqrtF (Fl.fin a)) (Fl.sqrtF (Fl.fin b)) = decide (a ≤ b) := by
  rw [sqrtF_fin a ha, sqrtF_fin b hb]
  by_cases hsa : isSqRat a <;> by_cases hsb : isSqRat b <;>
    simp only [hsa, hsb, if_true, if_false, Fl.le, zero_lt_one, if_pos]
  · refine decide_eq_decide.mpr ?_
    have h1 : ratSqrt a * ratSqrt a = a := hsa
    have h2 : ratSqrt b * ratSqrt b = b := hsb
    have h1n := ratSqrt_nonneg a
    have h2n := ratSqrt_nonneg b
    constructor
    · intro h; nlinarith
    · intro h; nlinarith
  · refine decide_eq_decide.mpr ?_
    have h1 : ratSqrt a * ratSqrt a = a := hsa
    have h1n := ratSqrt_nonneg a
    constructor
    · rintro (h | h)
      · nlinarith
      · nlinarith
    · intro h; right; nlinarith
  · refine decide_eq_decide.mpr ?_
    have h2 : ratSqrt b * ratSqrt b = b := hsb
    have h2n := ratSqrt_nonneg b
    constructor
    · rintro ⟨-, h⟩; nlinarith
    · intro h; exact ⟨h2n, by nlinarith⟩
  · refine decide_eq_decide.mpr ?_
    constructor
    · intro h; nlinarith
    · intro h; nlinarith

/-- Comparing `√m` against a rational tolerance `t` through `Fl.le` is the
exact condition `0 ≤ t ∧ m ≤ t²`. -/
lemma le_sqrtF_tol (m t : ℚ) (hm : 0 ≤ m) :
    Fl.le (Fl.sqrtF (Fl.fin m)) (Fl.fin t) = decide (0 ≤ t ∧ m ≤ t * t) := by
  rw [sqrtF_fin m hm]
  by_cases hs : isSqRat m <;>
    simp only [hs, if_true, if_false, Fl.le, zero_lt_one, if_pos]
  · refine decide_eq_decide.mpr ?_
    have h1 : ratSqrt m * ratSqrt m = m := hs
    have h1n := ratSqrt_nonneg m
    constructor
    · intro h; exact ⟨le_trans h1n h, by nlinarith⟩
    · rintro ⟨ht, h⟩; nlinarith
  · refine decide_eq_decide.mpr ?_
    constructor
    · rintro ⟨ht, h⟩; exact ⟨ht, by nlinarith⟩
    · rintro ⟨ht, h⟩; exact ⟨ht, by nlinarith⟩

lemma le_nan_right (x : Fl) : Fl.le x Fl.nan = false := by cases x <;> rfl

/-- Shared accumulator behind `np.nanmin`/`np.nanargmin`: scans the list
keeping the first (index, value) pair realising the minimum, skipping NaN. -/
def nanBestAux : List Fl → Nat → Option (Nat × Fl) → Option (Nat × Fl)
  | [], _, best => best
  | v :: rest, i, none =>
      if v.isnan then nanBestAux rest (i + 1) none
      else nanBestAux rest (i + 1) (some (i, v))
  | v :: rest, i, some (j, b) =>
      if v.isnan then nanBestAux rest (i + 1) (some (j, b))
      else if Fl.le b v then nanBestAux rest (i + 1) (some (j, b))
      else nanBestAux rest (i + 1) (some (i, v))

/-- `np.nanargmin` (first index of the minimum over non-NaN entries). -/
def nanargmin (l : List Fl) : Nat :=
  match nanBestAux l 0 none with
  | some jb => jb.1
  | none => 0

/-- `np.nanmin` (minimum over non-NaN entries; NaN if there is none). -/
def nanmin (l : List Fl) : Fl :=
  match nanBestAux l 0 none with
  | some jb => jb.2
  | none => Fl.nan

/-- Accumulator behind `np.min`/`np.argmin`: NaN propagates (wins). -/
def minBestAux : List Fl → Nat → Option (Nat × Fl) → Option (Nat × Fl)
  | [], _, best => best
  | v :: rest, i, none => minBestAux rest (i + 1) (some (i, v))
  | v :: rest, i, some (j, b) =>
      if b.isnan then minBestAux rest (i + 1) (some (j, b))
      else if v.isnan then minBestAux rest (i + 1) (some (i, v))
      else if Fl.le b v then minBestAux rest (i + 1) (some (j, b))
      else minBestAux rest (i + 1) (some (i, v))

/-- `np.min` (NaN-propagating; the empty case, which numpy rejects, is junk). -/
def minF (l : List Fl) : Fl :=
  match minBestAux l 0 none with
  | some jb => jb.2
  | none => Fl.nan

/-- `np.argmin` (first index; NaN wins). -/
def argminF (l : List Fl) : Nat :=
  match minBestAux l 0 none with
  | some jb => jb.1
  | none => 0

/-! ## numpy ndarrays and Fortran-order reshaping

An ndarray is its shape plus the C-order (row-major) data list, numpy's
memory layout.  `raycast_pixels` flattens and unflattens with `order='F'`;
this is made explicit below: position `n` of the Fortran-order flat view
holds the element at C-order position `cIndex sh (fMulti sh n)`. -/

structure NDArray (α : Type) where
  shape : List Nat
  data : List α
deriving DecidableEq

/-- The data list fills the shape exactly (`np.size` elements). -/
def NDArray.wf (a : NDArray α) : Prop := a.data.length = a.shape.prod

/-- Multi-index of Fortran-order flat position `n` (first axis fastest). -/
def fMulti : List Nat → Nat → List Nat
  | [], _ => []
  | s :: rest, n => (n % s) :: fMulti rest (n / s)

/-- Fortran-order flat position of a multi-index. -/
def fIndex : List Nat → List Nat → Nat
  | s :: srest, i :: irest => i + s * fIndex srest irest
  | _, _ => 0

/-- C-order flat position of a multi-index (last axis fastest). -/
def cIndex : List Nat → List Nat → Nat
  | _ :: srest, i :: irest => i * srest.prod + cIndex srest irest
  | _, _ => 0

/-- Multi-index of C-order flat position `m`. -/
def cMulti : List Nat → Nat → List Nat
  | [], _ => []
  | _ :: rest, m => (m / rest.prod) :: cMulti rest (m % rest.prod)

/-- A multi-index is componentwise within the shape (and of equal rank). -/
def bounded : List Nat → List Nat → Prop
  | [], [] => True
  | s :: srest, i :: irest => i < s ∧ bounded srest irest
  | _, _ => False

lemma fIndex_lt : ∀ (sh idx : List Nat), bounded sh idx → fIndex sh idx < sh.prod
  | [], [], _ => by simp [fIndex]
  | s :: sr, i :: ir, h => by
      obtain ⟨hi, hb⟩ := h
      have ih := fIndex_lt sr ir hb
      simp only [fIndex, List.prod_cons]
      calc i + s * fIndex sr ir < s + s * fIndex sr ir := by omega
        _ = s * (fIndex sr ir + 1) := by ring
        _ ≤ s * sr.prod := Nat.mul_le_mul_left s (by omega)

lemma cIndex_lt : ∀ (sh idx : List Nat), bounded sh idx → cIndex sh idx < sh.prod
  | [], [], _ => by simp [cIndex]
  | s :: sr, i :: ir, h => by
      obtain ⟨hi, hb⟩ := h
      have ih := cIndex_lt sr ir hb
      simp only [cIndex, List.prod_cons]
      calc i * sr.prod + cIndex sr ir < i * sr.prod + sr.prod := by omega
        _ = (i + 1) * sr.prod := by ring
        _ ≤ s * sr.prod := Nat.mul_le_mul_right sr.prod (by omega)

lemma fMulti_fIndex : ∀ (sh idx : List Nat), bounded sh idx → fMulti sh (fIndex sh idx) = idx
  | [], [], _ => rfl
  | s :: sr, i :: ir, h => by
      obtain ⟨hi, hb⟩ := h
      simp only [fMulti, fIndex]
      rw [Nat.add_mul_mod_self_left, Nat.mod_eq_of_lt hi,
        Nat.add_mul_div_left _ _ (by omega : 0 < s), Nat.div_eq_of_lt hi, Nat.zero_add,
        fMulti_fIndex sr ir hb]

lemma cMulti_bounded : ∀ (sh : List Nat) (m : Nat), m < sh.prod → bounded sh (cMulti sh m)
  | [], _, _ => trivial
  | s :: sr, m, hm => by
      simp only [List.prod_cons] at hm
      have hp : 0 < sr.prod := by
        rcases Nat.eq_zero_or_pos sr.prod with h0 | h
        · rw [h0, Nat.mul_zero] at hm; exact absurd hm (Nat.not_lt_zero m)
        · exact h
      refine ⟨?_, cMulti_bounded sr (m % sr.prod) (Nat.mod_lt m hp)⟩
      exact Nat.div_lt_of_lt_mul (by rwa [Nat.mul_comm] at hm)

lemma cIndex_cMulti : ∀ (sh : List Nat) (m : Nat), m < sh.prod → cIndex sh (cMulti sh m) = m
  | [], m, hm => by
      simp only [List.prod_nil] at hm
      simp only [cMulti, cIndex]
      omega
  | s :: sr, m, hm => by
      simp only [List.prod_cons] at hm
      have hp : 0 < sr.prod := by
        rcases Nat.eq_zero_or_pos sr.prod with h0 | h
        · rw [h0, Nat.mul_zero] at hm; exact absurd hm (Nat.not_lt_zero m)
        · exact h
      simp only [cIndex, cMulti]
      rw [cIndex_cMulti sr (m % sr.prod) (Nat.mod_lt m hp), Nat.mul_comm]
      exact Nat.div_add_mod m sr.prod

/-- The index `n` into the Fortran-flat view that C-order position `m` comes
back from under `reshape(..., order='F')`. -/
def fOfC (sh : List Nat) (m : Nat) : Nat := fIndex sh (cMulti sh m)

lemma fOfC_lt (sh : List Nat) (m : Nat) (hm : m < sh.prod) : fOfC sh m < sh.prod :=
  fIndex_lt sh _ (cMulti_bounded sh m hm)

lemma cIndex_fMulti_fOfC (sh : List Nat) (m : Nat) (hm : m < sh.prod) :
    cIndex sh (fMulti sh (fOfC sh m)) = m := by
  unfold fOfC
  rw [fMulti_fIndex sh _ (cMulti_bounded sh m hm), cIndex_cMulti sh m hm]

/-- Fortran-order flat view of an ndarray (`np.reshape(a, np.size(a), order='F')`). -/
def flattenF (d : α) (a : NDArray α) : List α :=
  (List.range a.shape.prod).map (fun n => a.data.getD (cIndex a.shape (fMulti a.shape n)) d)

/-- Rebuild an ndarray of shape `sh` from a Fortran-order flat list
(`np.reshape(l, sh, order='F')`). -/
def unflattenF (d : α) (sh : List Nat) (l : List α) : NDArray α :=
  ⟨sh, (List.range sh.prod).map (fun m => l.getD (fOfC sh m) d)⟩

lemma getD_range_map {α : Type} (f : Nat → α) (N m : Nat) (d : α) (hm : m < N) :
    ((List.range N).map f).getD m d = f m := by
  rw [List.getD_eq_getElem?_getD, List.getElem?_map, List.getElem?_range hm]
  rfl

lemma length_range_map {α : Type} (f : Nat → α) (N : Nat) :
    ((List.range N).map f).length = N := by simp

lemma flattenF_getD (d : α) (a : NDArray α) (n : Nat) (hn : n < a.shape.prod) :
    (flattenF d a).getD n d = a.data.getD (cIndex a.shape (fMulti a.shape n)) d :=
  getD_range_map _ _ _ _ hn

lemma unflattenF_getD (d : α) (sh : List Nat) (l : List α) (m : Nat) (hm : m < sh.prod) :
    (unflattenF d sh l).data.getD m d = l.getD (fOfC sh m) d :=
  getD_range_map _ _ _ _ hm

lemma unflattenF_shape (d : α) (sh : List Nat) (l : List α) :
    (unflattenF d sh l).shape = sh := rfl

/-! ## Data model

`CoordTransformer` keeps only the module's own data (the
display/original conversion *functions* live in the external
`coordtransformer` module and are passed as opaque parameters where the
source calls them). -/

structure CoordTransformer where
  transform_actions : List String
  x_pixels : Int
  y_pixels : Int
  pixel_aspectratio : ℚ
deriving DecidableEq

/-- External collaborator `FitResults` (the camera calibration): pointwise
pixel→pupil-position and pixel→sight-line-direction maps, the
original→display pixel-coordinate conversion, and the transform metadata. -/
structure FitResults where
  get_pupilpos : Fl → Fl → Vec3
  get_los_direction : Fl → Fl → Vec3
  orig_to_display : Fl → Fl → Fl × Fl
  transform : CoordTransformer

/-- External collaborator `vtkCellLocator.IntersectWithLine`: nearest hit
point of the segment with the CAD surface, or none. -/
abbrev Locator := Vec3 → Vec3 → Option Vec3

structure RayCaster where
  fitresults : Option FitResults
  vtkCellLocator : Option Locator
  max_ray_length : Fl

inductive CoordsKind | display | original
deriving DecidableEq

/-- The `RayData` container (class `RayData`, lines 218-230). -/
structure RayData where
  ray_end_coords : NDArray Vec3
  ray_start_coords : NDArray Vec3
  binning : Option Int
  transform : CoordTransformer
  fullchip : Bool
  x : Option (NDArray Fl)
  y : Option (NDArray Fl)
  ResultType : String
deriving DecidableEq

/-! ## RayCaster.raycast_pixels (lines 82-213)

Modelling notes:
* Only the explicit-pixel path is embedded (`x`, `y` both given); the
  full-chip branch (lines 91-102, `x is None and y is None`) is not used
  by any claim.
* Coordinate arrays of *any* rank are accepted, as in the source.
* The `[...,3]`-shaped coordinate arrays are modelled as `NDArray Vec3`
  with the pixel shape: for the source's flat `[N,3]` buffers, both the
  C-order flatten of the inputs and the final
  `np.reshape(..., orig_shape + (3,), order='F')` transport the whole
  3-vector of flat pixel `n` to pixel position `n` of the pixel shape
  (the trailing length-3 axis is slowest in Fortran order), so a
  `Vec3`-valued pixel array is exactly faithful.
* The progress/ETA printing (lines 139-203) has no effect on the result
  and is omitted; `random.shuffle` (line 157) is modelled by passing the
  visitation order `inds` explicitly (theorems quantify over all
  permutations of `range N`). -/

/-- One iteration of the cast loop (lines 159-173), acting on the flat
(start, end) coordinate buffers at slot `ind`. -/
def castStep (loc : Locator) (L : Fl) (valid : Nat → Bool) (losd : Nat → Vec3)
    (st : List Vec3 × List Vec3) (ind : Nat) : List Vec3 × List Vec3 :=
  if valid ind then
    let s := st.1.getD ind nan3
    let rayend := vadd s (vsmul L (losd ind))
    let e := match loc s rayend with
      | some pos => pos
      | none => rayend
    (st.1, st.2.set ind e)
  else (st.1.set ind nan3, st.2.set ind nan3)

/-- Line 106: validity mask over the Fortran-flat view, computed from the
arrays as given (before any coordinate conversion): a pixel is valid iff
neither of its coordinates is NaN. -/
def maskValidF (x y : NDArray Fl) (n : Nat) : Bool :=
  !((flattenF Fl.nan x).getD n Fl.nan).isnan && !((flattenF Fl.nan y).getD n Fl.nan).isnan

/-- Lines 107-108: for `Coords='original'`, convert the pixel-coordinate
arrays to display coordinates (elementwise, external collaborator). -/
def coordConv (fr : FitResults) (Coords : CoordsKind) (x y : NDArray Fl) :
    NDArray Fl × NDArray Fl :=
  match Coords with
  | .display => (x, y)
  | .original =>
      (⟨x.shape, (x.data.zip y.data).map (fun p => (fr.orig_to_display p.1 p.2).1)⟩,
       ⟨y.shape, (x.data.zip y.data).map (fun p => (fr.orig_to_display p.1 p.2).2)⟩)

/-- Lines 113-116 + 120-121: Fortran-flat coordinate list with invalid
entries set to 0 (before the collaborator calls). -/
def zeroedFlat (x y a : NDArray Fl) : List Fl :=
  (List.range x.shape.prod).map
    (fun n => if maskValidF x y n then (flattenF Fl.nan a).getD n Fl.nan else Fl.fin 0)

/-- Line 135: per-pixel sight-line directions over the flat batch. -/
def losFlat (fr : FitResults) (x y xd yd : NDArray Fl) : List Vec3 :=
  (List.range x.shape.prod).map (fun n =>
    fr.get_los_direction ((zeroedFlat x y xd).getD n (Fl.fin 0))
      ((zeroedFlat x y yd).getD n (Fl.fin 0)))

/-- Line 136: per-pixel pupil positions over the flat batch. -/
def pupilFlat (fr : FitResults) (x y xd yd : NDArray Fl) : List Vec3 :=
  (List.range x.shape.prod).map (fun n =>
    fr.get_pupilpos ((zeroedFlat x y xd).getD n (Fl.fin 0))
      ((zeroedFlat x y yd).getD n (Fl.fin 0)))

def raycast_pixels (rc : RayCaster) (x y : NDArray Fl) (Coords : CoordsKind)
    (inds : List Nat) : Except String RayData :=
  match rc.fitresults with
  | none => .error "Camera fit results not set in RayCaster!"
  | some fr =>
    match rc.vtkCellLocator with
    | none => .error "CAD model not set in RayCaster!"
    | some loc =>
      if x.shape = y.shape then
        let xd := (coordConv fr Coords x y).1
        let yd := (coordConv fr Coords x y).2
        let N := x.shape.prod
        -- lines 159-173: the cast loop in the (shuffled) visitation order
        -- `inds`, over the flat pupil-position buffer (line 136) and the
        -- uninitialised end-coordinate buffer (line 132, modelled zero-filled:
        -- every slot is written because `inds` covers `range N`)
        let ste := inds.foldl
          (castStep loc rc.max_ray_length (maskValidF x y)
            (fun n => (losFlat fr x y xd yd).getD n nan3))
          (pupilFlat fr x y xd yd, List.replicate N (Fl.fin 0, Fl.fin 0, Fl.fin 0))
        -- lines 205-211: restore NaN at invalid pixels and reshape everything
        -- back to the input shape in Fortran order
        .ok { ray_end_coords := unflattenF nan3 x.shape ste.2
              ray_start_coords := unflattenF nan3 x.shape ste.1
              binning := none          -- line 130: not a full-chip cast
              transform := fr.transform
              fullchip := false
              x := some (unflattenF Fl.nan x.shape ((List.range N).map
                (fun n => if maskValidF x y n then (zeroedFlat x y xd).getD n (Fl.fin 0)
                          else Fl.nan)))
              y := some (unflattenF Fl.nan x.shape ((List.range N).map
                (fun n => if maskValidF x y n then (zeroedFlat x y yd).getD n (Fl.fin 0)
                          else Fl.nan)))
              ResultType := "PixelRayCast" }
      else .error "x and y arrays must be the same shape!"

/-! ## Characterisation of the cast loop -/

/-- The ray end computed for a valid pixel (lines 166-173): the maximal
segment endpoint `s + L·d`, replaced by the locator's hit when there is one. -/
def castEnd (loc : Locator) (L : Fl) (d s : Vec3) : Vec3 :=
  let rayend := vadd s (vsmul L d)
  match loc s rayend with
  | some pos => pos
  | none => rayend

lemma getD_set_self {α : Type} (l : List α) (i : Nat) (v d : α) (h : i < l.length) :
    (l.set i v).getD i d = v := by
  rw [List.getD_eq_getElem?_getD, List.getElem?_set_self h]; rfl

lemma getD_set_ne {α : Type} (l : List α) (i j : Nat) (v d : α) (h : i ≠ j) :
    (l.set i v).getD j d = l.getD j d := by
  rw [List.getD_eq_getElem?_getD, List.getElem?_set_ne h, ← List.getD_eq_getElem?_getD]

/-- Each loop iteration writes only its own slot, and reads only its own
slot of the start buffer; over a duplicate-free visitation order the final
buffers are therefore pointwise functions of the initial ones. -/
lemma castFold_getD (loc : Locator) (L : Fl) (valid : Nat → Bool) (losd : Nat → Vec3) :
    ∀ (inds : List Nat) (st en : List Vec3), inds.Nodup →
      (∀ i ∈ inds, i < st.length ∧ i < en.length) → ∀ m,
      (inds.foldl (castStep loc L valid losd) (st, en)).1.getD m nan3 =
        (if m ∈ inds ∧ valid m = false then nan3 else st.getD m nan3) ∧
      (inds.foldl (castStep loc L valid losd) (st, en)).2.getD m nan3 =
        (if m ∈ inds then
          (if valid m then castEnd loc L (losd m) (st.getD m nan3) else nan3)
         else en.getD m nan3) := by
  intro inds
  induction inds with
  | nil => intro st en _ _ m; simp
  | cons a rest ih =>
    intro st en hnd hb m
    rw [List.foldl_cons]
    have hnd' : rest.Nodup := (List.nodup_cons.mp hnd).2
    have ha : a ∉ rest := (List.nodup_cons.mp hnd).1
    have hal : a < st.length ∧ a < en.length := hb a (List.mem_cons_self a rest)
    by_cases hva : valid a
    · have hcs : castStep loc L valid losd (st, en) a =
          (st, en.set a (castEnd loc L (losd a) (st.getD a nan3))) := by
        simp [castStep, castEnd, hva]
      rw [hcs]
      have hb' : ∀ i ∈ rest,
          i < st.length ∧ i < (en.set a (castEnd loc L (losd a) (st.getD a nan3))).length := by
        intro i hi
        have := hb i (List.mem_cons_of_mem a hi)
        simpa using this
      obtain ⟨IH1, IH2⟩ := ih st _ hnd' hb' m
      refine ⟨?_, ?_⟩
      · rw [IH1]
        by_cases hma : m = a
        · subst hma; simp [hva, ha]
        · simp [List.mem_cons, hma]
      · rw [IH2]
        by_cases hma : m = a
        · subst hma
          rw [if_neg ha, getD_set_self _ _ _ _ hal.2,
            if_pos (List.mem_cons_self m rest), if_pos hva]
        · rw [getD_set_ne en a m _ nan3 (fun h => hma h.symm)]
          simp [List.mem_cons, hma]
    · have hvf : valid a = false := by simp at hva; exact hva
      have hcs : castStep loc L valid losd (st, en) a = (st.set a nan3, en.set a nan3) := by
        simp [castStep, hva]
      rw [hcs]
      have hb' : ∀ i ∈ rest, i < (st.set a nan3).length ∧ i < (en.set a nan3).length := by
        intro i hi
        have := hb i (List.mem_cons_of_mem a hi)
        simpa using this
      obtain ⟨IH1, IH2⟩ := ih _ _ hnd' hb' m
      refine ⟨?_, ?_⟩
      · rw [IH1]
        by_cases hma : m = a
        · subst hma
          rw [if_neg (fun h => ha h.1), getD_set_self _ _ _ _ hal.1,
            if_pos ⟨List.mem_cons_self m rest, hvf⟩]
        · rw [getD_set_ne st a m _ nan3 (fun h => hma h.symm)]
          simp [List.mem_cons, hma]
      · rw [IH2]
        by_cases hma : m = a
        · subst hma
          rw [if_neg ha, getD_set_self _ _ _ _ hal.2,
            if_pos (List.mem_cons_self m rest), if_neg hva]
        · rw [getD_set_ne st a m _ nan3 (fun h => hma h.symm),
            getD_set_ne en a m _ nan3 (fun h => hma h.symm)]
          simp [List.mem_cons, hma]

/-! ## The per-pixel description of raycast_pixels -/

/-- Validity of the pixel at C-order position `m`: neither coordinate is NaN
(line 106). -/
def pixValidC (x y : NDArray Fl) (m : Nat) : Bool :=
  !(x.data.getD m Fl.nan).isnan && !(y.data.getD m Fl.nan).isnan

/-- Ray end for a valid pixel with display coordinates `(xv, yv)`. -/
def pixelCastEnd (fr : FitResults) (loc : Locator) (L : Fl) (xv yv : Fl) : Vec3 :=
  castEnd loc L (fr.get_los_direction xv yv) (fr.get_pupilpos xv yv)

/-- The RayData produced by `raycast_pixels`, described pointwise in C-order:
every output array keeps the input pixel shape (start/end additionally carry
the trailing 3-vector), invalid pixels are NaN everywhere at their original
position, valid pixels get their cast geometry. `xd`, `yd` are the
display-converted coordinate arrays (equal to `x`, `y` for display input). -/
def raycastExpected (fr : FitResults) (loc : Locator) (L : Fl)
    (x y xd yd : NDArray Fl) : RayData :=
  { ray_end_coords := ⟨x.shape, (List.range x.shape.prod).map (fun m =>
      if pixValidC x y m then
        pixelCastEnd fr loc L (xd.data.getD m Fl.nan) (yd.data.getD m Fl.nan)
      else nan3)⟩
    ray_start_coords := ⟨x.shape, (List.range x.shape.prod).map (fun m =>
      if pixValidC x y m then
        fr.get_pupilpos (xd.data.getD m Fl.nan) (yd.data.getD m Fl.nan)
      else nan3)⟩
    binning := none
    transform := fr.transform
    fullchip := false
    x := some ⟨x.shape, (List.range x.shape.prod).map (fun m =>
      if pixValidC x y m then xd.data.getD m Fl.nan else Fl.nan)⟩
    y := some ⟨x.shape, (List.range x.shape.prod).map (fun m =>
      if pixValidC x y m then yd.data.getD m Fl.nan else Fl.nan)⟩
    ResultType := "PixelRayCast" }

lemma coordConv_fst_shape (fr : FitResults) (Coords : CoordsKind) (x y : NDArray Fl) :
    (coordConv fr Coords x y).1.shape = x.shape := by
  cases Coords <;> rfl

lemma coordConv_snd_shape (fr : FitResults) (Coords : CoordsKind) (x y : NDArray Fl)
    (hsh : x.shape = y.shape) : (coordConv fr Coords x y).2.shape = x.shape := by
  cases Coords <;> exact hsh.symm

lemma maskValidF_fOfC (x y : NDArray Fl) (hsh : x.shape = y.shape) (m : Nat)
    (hm : m < x.shape.prod) :
    maskValidF x y (fOfC x.shape m) = pixValidC x y m := by
  unfold maskValidF pixValidC
  have hn := fOfC_lt x.shape m hm
  have hn' : fOfC x.shape m < y.shape.prod := by rw [← hsh]; exact hn
  rw [flattenF_getD Fl.nan x _ hn, cIndex_fMulti_fOfC x.shape m hm,
    flattenF_getD Fl.nan y _ hn', show y.shape = x.shape from hsh.symm,
    cIndex_fMulti_fOfC x.shape m hm]

lemma zeroedFlat_fOfC_valid (x y a : NDArray Fl) (m : Nat) (hm : m < x.shape.prod)
    (hash : a.shape = x.shape) (hv : maskValidF x y (fOfC x.shape m) = true) (d : Fl) :
    (zeroedFlat x y a).getD (fOfC x.shape m) d = a.data.getD m Fl.nan := by
  unfold zeroedFlat
  have hn := fOfC_lt x.shape m hm
  have hn' : fOfC x.shape m < a.shape.prod := by rw [hash]; exact hn
  rw [getD_range_map _ _ _ _ hn, if_pos hv, flattenF_getD Fl.nan a _ hn',
    show a.shape = x.shape from hash, cIndex_fMulti_fOfC x.shape m hm]

lemma losFlat_getD (fr : FitResults) (x y xd yd : NDArray Fl) (n : Nat)
    (hn : n < x.shape.prod) (d : Vec3) :
    (losFlat fr x y xd yd).getD n d =
      fr.get_los_direction ((zeroedFlat x y xd).getD n (Fl.fin 0))
        ((zeroedFlat x y yd).getD n (Fl.fin 0)) :=
  getD_range_map _ _ _ _ hn

lemma pupilFlat_getD (fr : FitResults) (x y xd yd : NDArray Fl) (n : Nat)
    (hn : n < x.shape.prod) (d : Vec3) :
    (pupilFlat fr x y xd yd).getD n d =
      fr.get_pupilpos ((zeroedFlat x y xd).getD n (Fl.fin 0))
        ((zeroedFlat x y yd).getD n (Fl.fin 0)) :=
  getD_range_map _ _ _ _ hn

/-- Master characterisation: on a configured caster, equal-shaped inputs,
and any visitation order covering each flat index exactly once,
`raycast_pixels` succeeds and its result is `raycastExpected` — a pointwise
function of the input pixels that does not mention the visitation order. -/
theorem raycast_pixels_eq (fr : FitResults) (loc : Locator) (L : Fl) (x y : NDArray Fl)
    (Coords : CoordsKind) (inds : List Nat)
    (hsh : x.shape = y.shape) (hperm : inds.Perm (List.range x.shape.prod)) :
    raycast_pixels ⟨some fr, some loc, L⟩ x y Coords inds =
      Except.ok (raycastExpected fr loc L x y (coordConv fr Coords x y).1
        (coordConv fr Coords x y).2) := by
  have hnd : inds.Nodup := hperm.nodup_iff.mpr (List.nodup_range _)
  have hmemi : ∀ n, n ∈ inds ↔ n < x.shape.prod := fun n => by
    rw [hperm.mem_iff, List.mem_range]
  have hxds : (coordConv fr Coords x y).1.shape = x.shape := coordConv_fst_shape fr Coords x y
  have hyds : (coordConv fr Coords x y).2.shape = x.shape :=
    coordConv_snd_shape fr Coords x y hsh
  have hbounds : ∀ i ∈ inds,
      i < (pupilFlat fr x y (coordConv fr Coords x y).1 (coordConv fr Coords x y).2).length ∧
      i < (List.replicate x.shape.prod ((Fl.fin 0 : Fl), (Fl.fin 0 : Fl), (Fl.fin 0 : Fl))).length := by
    intro i hi
    have hi' : i < x.shape.prod := (hmemi i).mp hi
    refine ⟨?_, ?_⟩
    · unfold pupilFlat; rw [length_range_map]; exact hi'
    · rw [List.length_replicate]; exact hi'
  have hfold := castFold_getD loc L (maskValidF x y)
    (fun n => (losFlat fr x y (coordConv fr Coords x y).1 (coordConv fr Coords x y).2).getD n nan3)
    inds _ _ hnd hbounds
  unfold raycast_pixels
  dsimp only
  rw [if_pos hsh]
  refine congrArg Except.ok ?_
  unfold raycastExpected unflattenF
  congr 1
  -- ray_end_coords
  · refine congrArg (NDArray.mk x.shape) ?_
    refine List.map_congr_left ?_
    intro m hm
    rw [List.mem_range] at hm
    have hn : fOfC x.shape m < x.shape.prod := fOfC_lt x.shape m hm
    rw [(hfold (fOfC x.shape m)).2, if_pos ((hmemi _).mpr hn), maskValidF_fOfC x y hsh m hm]
    by_cases hv : pixValidC x y m = true
    · have hv' : maskValidF x y (fOfC x.shape m) = true := by
        rw [maskValidF_fOfC x y hsh m hm]; exact hv
      rw [if_pos hv, if_pos hv]
      simp only
      rw [losFlat_getD fr x y _ _ _ hn nan3, pupilFlat_getD fr x y _ _ _ hn nan3,
        zeroedFlat_fOfC_valid x y _ m hm hxds hv' (Fl.fin 0),
        zeroedFlat_fOfC_valid x y _ m hm hyds hv' (Fl.fin 0)]
      rfl
    · rw [if_neg hv, if_neg hv]
  -- ray_start_coords
  · refine congrArg (NDArray.mk x.shape) ?_
    refine List.map_congr_left ?_
    intro m hm
    rw [List.mem_range] at hm
    have hn : fOfC x.shape m < x.shape.prod := fOfC_lt x.shape m hm
    rw [(hfold (fOfC x.shape m)).1, maskValidF_fOfC x y hsh m hm]
    by_cases hv : pixValidC x y m = true
    · have hv' : maskValidF x y (fOfC x.shape m) = true := by
        rw [maskValidF_fOfC x y hsh m hm]; exact hv
      rw [if_neg (fun h => by rw [hv] at h; exact absurd h.2 (by simp)), if_pos hv]
      rw [pupilFlat_getD fr x y _ _ _ hn nan3,
        zeroedFlat_fOfC_valid x y _ m hm hxds hv' (Fl.fin 0),
        zeroedFlat_fOfC_valid x y _ m hm hyds hv' (Fl.fin 0)]
    · have hvf : pixValidC x y m = false := by simp at hv; exact hv
      rw [if_pos ⟨(hmemi _).mpr hn, hvf⟩, if_neg hv]
  -- x
  · refine congrArg some (congrArg (NDArray.mk x.shape) ?_)
    refine List.map_congr_left ?_
    intro m hm
    rw [List.mem_range] at hm
    have hn : fOfC x.shape m < x.shape.prod := fOfC_lt x.shape m hm
    rw [getD_range_map _ _ _ _ hn, maskValidF_fOfC x y hsh m hm]
    by_cases hv : pixValidC x y m = true
    · have hv' : maskValidF x y (fOfC x.shape m) = true := by
        rw [maskValidF_fOfC x y hsh m hm]; exact hv
      rw [if_pos hv, if_pos hv, zeroedFlat_fOfC_valid x y _ m hm hxds hv' (Fl.fin 0)]
    · rw [if_neg hv, if_neg hv]
  -- y
  · refine congrArg some (congrArg (NDArray.mk x.shape) ?_)
    refine List.map_congr_left ?_
    intro m hm
    rw [List.mem_range] at hm
    have hn : fOfC x.shape m < x.shape.prod := fOfC_lt x.shape m hm
    rw [getD_range_map _ _ _ _ hn, maskValidF_fOfC x y hsh m hm]
    by_cases hv : pixValidC x y m = true
    · have hv' : maskValidF x y (fOfC x.shape m) = true := by
        rw [maskValidF_fOfC x y hsh m hm]; exact hv
      rw [if_pos hv, if_pos hv, zeroedFlat_fOfC_valid x y _ m hm hyds hv' (Fl.fin 0)]
    · rw [if_neg hv, if_neg hv]

/-! ## Derived geometric queries (lines 316-412) -/

/-- A sequential loop over query points that aborts at the first raised
exception (Python's `for` + `raise`). -/
def exceptMap {α β : Type} (f : α → Except String β) : List α → Except String (List β)
  | [] => .ok []
  | a :: rest =>
      match f a with
      | .error e => .error e
      | .ok b =>
          match exceptMap f rest with
          | .error e => .error e
          | .ok bs => .ok (b :: bs)

/-- Per-pixel ray length (line 320):
`np.sqrt(np.sum((ray_end_coords - ray_start_coords)**2, axis=-1))`,
as the C-order flat list (the source flattens it at line 346). -/
def rayLengthFlat (rd : RayData) : List Fl :=
  (rd.ray_end_coords.data.zip rd.ray_start_coords.data).map (fun p =>
    Fl.sqrtF ((((p.1.1.sub p.2.1).mul (p.1.1.sub p.2.1)).add
      ((p.1.2.1.sub p.2.2.1).mul (p.1.2.1.sub p.2.2.1))).add
      ((p.1.2.2.sub p.2.2.2).mul (p.1.2.2.sub p.2.2.2))))

/-- Lines 339-340 / 385-386: conversion of the query coordinates from
original to display coordinates (external collaborator, elementwise). -/
def convQuery (origToDisp : Fl → Fl → Fl × Fl) (Coords : CoordsKind)
    (xa ya : NDArray Fl) : NDArray Fl × NDArray Fl :=
  match Coords with
  | .display => (xa, ya)
  | .original =>
      (⟨xa.shape, (xa.data.zip ya.data).map (fun p => (origToDisp p.1 p.2).1)⟩,
       ⟨ya.shape, (xa.data.zip ya.data).map (fun p => (origToDisp p.1 p.2).2)⟩)

/-- Lines 354-356 / 401-403: distances `√(ΔX² + ΔY²)` from the query pixel
`(qx, qy)` to every stored pixel. -/
def deltaRList (xs ys : List Fl) (qx qy : Fl) : List Fl :=
  (xs.zip ys).map (fun s =>
    Fl.sqrtF (((s.1.sub qx).mul (s.1.sub qx)).add ((s.2.sub qy).mul (s.2.sub qy))))

/-- The per-query-pixel body of `get_ray_lengths` (lines 349-360): NaN query
coordinates short-circuit to NaN; otherwise the nearest stored pixel by
`np.nanmin`/`np.nanargmin` of `√(ΔX² + ΔY²)` supplies the ray length when
within tolerance, else the no-nearby-ray exception is raised. -/
def lengthQueryPoint (xs ys RLf : List Fl) (tol qx qy : Fl) : Except String Fl :=
  if qx.isnan || qy.isnan then .ok Fl.nan
  else
    let deltaR := deltaRList xs ys qx qy
    if Fl.le (nanmin deltaR) tol then .ok (RLf.getD (nanargmin deltaR) (Fl.fin 0))
    else .error "No ray-traced pixel within PositionTol of requested pixel!"

/-- `RayData.get_ray_lengths` (lines 316-361).  `dispToOrigImg` is the
external `transform.display_to_original_image` used only on the
no-query full-chip original-coordinates path. -/
def get_ray_lengths (dispToOrigImg : NDArray Fl → Option Int → NDArray Fl)
    (origToDisp : Fl → Fl → Fl × Fl) (rd : RayData) (x y : Option (NDArray Fl))
    (PositionTol : Fl) (Coords : CoordsKind) : Except String (NDArray Fl) :=
  let RayLength : NDArray Fl := ⟨rd.ray_end_coords.shape, rayLengthFlat rd⟩
  match x, y with
  | none, none =>
      if rd.fullchip then
        match Coords with
        | .display => .ok RayLength
        | .original => .ok (dispToOrigImg RayLength rd.binning)
      else .ok RayLength
  | _, _ =>
      match rd.x, rd.y with
      | some sx, some sy =>
          match x, y with
          | some xa, some ya =>
              if xa.shape = ya.shape then
                let xq := (convQuery origToDisp Coords xa ya).1
                let yq := (convQuery origToDisp Coords xa ya).2
                match exceptMap (fun n =>
                    lengthQueryPoint sx.data sy.data (rayLengthFlat rd) PositionTol
                      ((flattenF Fl.nan xq).getD n Fl.nan) ((flattenF Fl.nan yq).getD n Fl.nan))
                    (List.range xq.shape.prod) with
                | .ok RL => .ok (unflattenF Fl.nan xq.shape RL)
                | .error e => .error e
              else .error "x and y arrays must be the same shape!"
          | _, _ => .error "x and y arrays must be the same shape!"
      | _, _ => .error "This ray data does not have x and y pixel indices!"

/-- Lines 367-368: per-pixel unit sight-line vectors
`(ray_end_coords - ray_start_coords) / repeat(lengths, 3, axis=-1)`,
as the C-order flat list.  The division has no guard: a zero-length ray
divides 0 by 0.  (`self.get_ray_lengths()` with no arguments returns
exactly the per-pixel length array on every path.) -/
def dirsFlat (rd : RayData) : List Vec3 :=
  ((rd.ray_end_coords.data.zip rd.ray_start_coords.data).zip (rayLengthFlat rd)).map
    (fun p => ((p.1.1.1.sub p.1.2.1).div p.2, (p.1.1.2.1.sub p.1.2.2.1).div p.2,
               (p.1.1.2.2.sub p.1.2.2.2).div p.2))

/-- The per-query-pixel body of `get_ray_directions` (lines 400-409): unlike
`lengthQueryPoint` there is NO NaN guard on the query coordinates, and the
NaN-propagating `np.min`/`np.argmin` are used instead of the NaN-ignoring
`np.nanmin`/`np.nanargmin`. -/
def dirQueryPoint (xs ys dX dY dZ : List Fl) (tol qx qy : Fl) : Except String Vec3 :=
  let deltaR := deltaRList xs ys qx qy
  if Fl.le (minF deltaR) tol then
    .ok (dX.getD (argminF deltaR) (Fl.fin 0), dY.getD (argminF deltaR) (Fl.fin 0),
         dZ.getD (argminF deltaR) (Fl.fin 0))
  else .error "No ray-traced pixel within PositionTol of requested pixel!"

/-- `RayData.get_ray_directions` (lines 364-412).  The final
`np.hstack([Xout, Yout, Zout])` followed by
`np.reshape(..., oldshape + (3,), order='F')` places the triple
`(Xout[n], Yout[n], Zout[n])` at the pixel whose Fortran-flat position is
`n` — i.e. exactly `unflattenF` over `Vec3` triples. -/
def get_ray_directions (dispToOrigImg3 : NDArray Vec3 → Option Int → NDArray Vec3)
    (origToDisp : Fl → Fl → Fl × Fl) (rd : RayData) (x y : Option (NDArray Fl))
    (PositionTol : Fl) (Coords : CoordsKind) : Except String (NDArray Vec3) :=
  let dirs : NDArray Vec3 := ⟨rd.ray_end_coords.shape, dirsFlat rd⟩
  match x, y with
  | none, none =>
      if rd.fullchip then
        match Coords with
        | .display => .ok dirs
        | .original => .ok (dispToOrigImg3 dirs rd.binning)
      else .ok dirs
  | _, _ =>
      match rd.x, rd.y with
      | some sx, some sy =>
          match x, y with
          | some xa, some ya =>
              if xa.shape = ya.shape then
                let xq := (convQuery origToDisp Coords xa ya).1
                let yq := (convQuery origToDisp Coords xa ya).2
                match exceptMap (fun n =>
                    dirQueryPoint sx.data sy.data ((dirsFlat rd).map (fun v => v.1))
                      ((dirsFlat rd).map (fun v => v.2.1)) ((dirsFlat rd).map (fun v => v.2.2))
                      PositionTol
                      ((flattenF Fl.nan xq).getD n Fl.nan) ((flattenF Fl.nan yq).getD n Fl.nan))
                    (List.range xq.shape.prod) with
                | .ok out => .ok (unflattenF nan3 xq.shape out)
                | .error e => .error e
              else .error "x and y arrays must be the same shape!"
          | _, _ => .error "x and y arrays must be the same shape!"
      | _, _ => .error "This ray data does not have x and y pixel indices!"

/-! ## Persistence (lines 232-314)

The netCDF file is modelled by its content (`NCFile`).  `save` has a
file-system effect besides its outcome: `netcdf_file(path, mode ['w'])` at
line 235 creates or truncates the destination before anything is checked,
so the raise at line 267 still leaves a truncated partial file behind.
`RayData.saveFile` returns the destination's final content (`SaveEffect`)
paired with the method's outcome; `RayData.save` is its outcome component.
Float (`f4`) variables are idealised as exact; the integer (`i4`)
`PixelXLocation`/`PixelYLocation` variables genuinely truncate. -/

/-- numpy cast of a float into an `i4` variable (`x[:,:] = self.x` with
`self.x` a float array): truncation toward zero for finite values; NaN and
the infinities have no integer value and map to numpy's x86 junk INT_MIN
(`rt` junk values are given 0). -/
def flToInt : Fl → Int
  | Fl.fin q => if 0 ≤ q then q.floor else q.ceil
  | Fl.rt _ _ => 0
  | _ => -2147483648

/-- The apostrophe character (written by code point to keep source quoting
uniform). -/
def squoteChar : Char := Char.ofNat 39

def squoteStr : String := String.mk [squoteChar]

/-- Python `sep.join(strings)`. -/
def pyJoin (sep : String) : List String → String
  | [] => ""
  | [a] => a
  | a :: rest => a ++ sep ++ pyJoin sep rest

/-- Line 237: the `image_transform_actions` attribute, a Python list
literal built as quote + join over quote-comma-quote + quote, wrapped in
square brackets. -/
def encodeActions (actions : List String) : String :=
  "[" ++ squoteStr ++ pyJoin (squoteStr ++ "," ++ squoteStr) actions ++ squoteStr ++ "]"

/-- The content of the saved netCDF file (attributes and variables of §
lines 235-289; dimensions are carried by the arrays' shapes). -/
structure NCFile where
  history : String
  image_transform_actions : String
  ResultType : String
  RayEndCoords : NDArray Vec3
  RayStartCoords : NDArray Vec3
  PixelXLocation : NDArray Int
  PixelYLocation : NDArray Int
  Binning : Int
  image_original_shape : Int × Int
  image_original_pixel_aspect : ℚ
deriving DecidableEq

/-- The destination file's content when `save` returns or raises.
`netcdf_file(path, mode ['w'])` at line 235 creates or truncates the
destination at once, before any check, and the `history`,
`image_transform_actions` and `ResultType` attributes are set (lines
236-238) before the rank test at line 242.  When the raise at line 267
aborts the method before `close`, the handle's finalizer still flushes
this staged header into the truncated file: the failing save leaves a
partial file and destroys any previous content at the destination
(`truncatedHeader`, carrying the three staged attributes).  A successful
save writes the `complete` file (line 289). -/
inductive SaveEffect where
  | truncatedHeader : String → String → String → SaveEffect
  | complete : NCFile → SaveEffect
deriving DecidableEq

/-- `RayData.save`'s file-system effect and outcome (lines 232-289): the
destination's final content paired with the method's return or raise.
The 2-D and 1-D branches differ only in the declared dimensions, which
the `NDArray` shapes carry; any other rank raises (line 267) after the
destination was truncated and the header attributes staged.  Pixel
coordinates are written into `i4` integer variables (lines 247-248 /
258-259): `flToInt`. -/
def RayData.saveFile (rd : RayData) : SaveEffect × Except String NCFile :=
  match rd.x, rd.y with
  | some sx, some sy =>
      if sx.shape.length = 2 ∨ sx.shape.length = 1 then
        let nc : NCFile :=
          { history := "CalCam_py output file"
            image_transform_actions := encodeActions rd.transform.transform_actions
            ResultType := rd.ResultType
            RayEndCoords := rd.ray_end_coords
            RayStartCoords := rd.ray_start_coords
            PixelXLocation := ⟨sx.shape, sx.data.map flToInt⟩
            PixelYLocation := ⟨sx.shape, sy.data.map flToInt⟩
            Binning := match rd.binning with
              | some b => b
              | none => 0
            image_original_shape := (rd.transform.x_pixels, rd.transform.y_pixels)
            image_original_pixel_aspect := rd.transform.pixel_aspectratio }
        (.complete nc, .ok nc)
      else
        (.truncatedHeader "CalCam_py output file"
           (encodeActions rd.transform.transform_actions) rd.ResultType,
         .error "Cannot save RayData with >2D x and y arrays!")
  | _, _ =>
      (.truncatedHeader "CalCam_py output file"
         (encodeActions rd.transform.transform_actions) rd.ResultType,
       .error "RayData has no pixel coordinate arrays")

/-- The value `save` returns (or the exception it raises): the outcome
component of `saveFile` — the file-system effect is its first
component. -/
def RayData.save (rd : RayData) : Except String NCFile := (RayData.saveFile rd).2

/-- Parser for the elements of a Python list-of-strings literal, modelling
the `eval` at line 309 on the well-formed literals `save` writes: read
characters into the current element (mode 0); a quote followed by
comma-quote starts the next element (modes 1, 2 consume the separator); a
quote followed by anything else closes the list.  The mode argument makes
the recursion structural on the character list. -/
def parseElems : List Char → Nat → String → List String
  | [], _, acc => [acc]
  | c :: rest, 0, acc =>
      if c = squoteChar then parseElems rest 1 acc else parseElems rest 0 (acc.push c)
  | c :: rest, 1, acc =>
      if c = ',' then parseElems rest 2 acc else [acc]
  | c :: rest, 2, acc =>
      if c = squoteChar then acc :: parseElems rest 0 "" else [acc]
  | _ :: _, _ + 3, acc => [acc]

/-- Line 309: `eval(f.image_transform_actions)` on a list-of-strings
literal. -/
def decodeActions (s : String) : List String :=
  match s.data with
  | c0 :: c1 :: rest => if c0 = '[' ∧ c1 = squoteChar then parseElems rest 0 "" else []
  | _ => []

/-- `RayData.load` (lines 292-314). -/
def RayData.load (f : NCFile) : RayData :=
  { ResultType := f.ResultType
    ray_end_coords := f.RayEndCoords
    ray_start_coords := f.RayStartCoords
    binning := if f.Binning = 0 then none else some f.Binning
    fullchip := if f.Binning = 0 then false else true
    x := some ⟨f.PixelXLocation.shape, f.PixelXLocation.data.map (fun (z : ℤ) => Fl.fin (z : ℚ))⟩
    y := some ⟨f.PixelYLocation.shape, f.PixelYLocation.data.map (fun (z : ℤ) => Fl.fin (z : ℚ))⟩
    transform := { transform_actions := decodeActions f.image_transform_actions
                   x_pixels := f.image_original_shape.1
                   y_pixels := f.image_original_shape.2
                   pixel_aspectratio := f.image_original_pixel_aspect } }

lemma parseElems_skip : ∀ (s cs : List Char) (acc : String), squoteChar ∉ s →
    parseElems (s ++ cs) 0 acc = parseElems cs 0 ⟨acc.data ++ s⟩
  | [], cs, acc, _ => by simp
  | c :: s', cs, acc, hq => by
      have hc : ¬ c = squoteChar := fun h => hq (h ▸ List.mem_cons_self c s')
      have hq' : squoteChar ∉ s' := fun h => hq (List.mem_cons_of_mem c h)
      have hstep : parseElems (c :: (s' ++ cs)) 0 acc =
          if c = squoteChar then parseElems (s' ++ cs) 1 acc
          else parseElems (s' ++ cs) 0 (acc.push c) := rfl
      show parseElems (c :: (s' ++ cs)) 0 acc = _
      rw [hstep, if_neg hc, parseElems_skip s' cs (acc.push c) hq']
      congr 1
      simp [String.push]

lemma parseElems_close (acc : String) :
    parseElems (squoteChar :: ']' :: []) 0 acc = [acc] := by
  have h1 : parseElems (squoteChar :: ']' :: []) 0 acc =
      if squoteChar = squoteChar then parseElems [']'] 1 acc
      else parseElems [']'] 0 (acc.push squoteChar) := rfl
  rw [h1, if_pos rfl]
  have h2 : parseElems [']'] 1 acc =
      if ']' = ',' then parseElems [] 2 acc else [acc] := rfl
  rw [h2, if_neg (by decide)]

lemma parseElems_sep (acc : String) (cs : List Char) :
    parseElems (squoteChar :: ',' :: squoteChar :: cs) 0 acc =
      acc :: parseElems cs 0 "" := by
  have h1 : parseElems (squoteChar :: ',' :: squoteChar :: cs) 0 acc =
      if squoteChar = squoteChar then parseElems (',' :: squoteChar :: cs) 1 acc
      else parseElems (',' :: squoteChar :: cs) 0 (acc.push squoteChar) := rfl
  rw [h1, if_pos rfl]
  have h2 : parseElems (',' :: squoteChar :: cs) 1 acc =
      if (',' : Char) = ',' then parseElems (squoteChar :: cs) 2 acc else [acc] := rfl
  rw [h2, if_pos rfl]
  have h3 : parseElems (squoteChar :: cs) 2 acc =
      if squoteChar = squoteChar then acc :: parseElems cs 0 "" else [acc] := rfl
  rw [h3, if_pos rfl]

lemma parse_join : ∀ (l : List String), l ≠ [] → (∀ a ∈ l, squoteChar ∉ a.data) →
    parseElems ((pyJoin (squoteStr ++ "," ++ squoteStr) l).data ++ [squoteChar, ']']) 0 "" = l
  | [], h, _ => absurd rfl h
  | [a], _, hq => by
      have ha : squoteChar ∉ a.data := hq a (List.mem_cons_self a [])
      show parseElems ((pyJoin (squoteStr ++ "," ++ squoteStr) [a]).data ++ _) 0 "" = [a]
      rw [show pyJoin (squoteStr ++ "," ++ squoteStr) [a] = a from rfl,
        parseElems_skip a.data _ "" ha, parseElems_close]
      simp
  | a :: b :: rest, _, hq => by
      have ha : squoteChar ∉ a.data := hq a (List.mem_cons_self _ _)
      have hq' : ∀ s ∈ b :: rest, squoteChar ∉ s.data :=
        fun s hs => hq s (List.mem_cons_of_mem a hs)
      have hjoin : pyJoin (squoteStr ++ "," ++ squoteStr) (a :: b :: rest) =
          a ++ (squoteStr ++ "," ++ squoteStr) ++ pyJoin (squoteStr ++ "," ++ squoteStr) (b :: rest) := rfl
      rw [hjoin, String.data_append, String.data_append, List.append_assoc, List.append_assoc,
        parseElems_skip a.data _ "" ha]
      rw [show ((squoteStr ++ "," ++ squoteStr).data ++
          ((pyJoin (squoteStr ++ "," ++ squoteStr) (b :: rest)).data ++ [squoteChar, ']'])) =
          squoteChar :: ',' :: squoteChar ::
          ((pyJoin (squoteStr ++ "," ++ squoteStr) (b :: rest)).data ++ [squoteChar, ']']) from rfl]
      rw [parseElems_sep, parse_join (b :: rest) (List.cons_ne_nil b rest) hq']
      simp

/-- `eval` inverts the attribute encoding for the lists `save` actually
writes: nonempty action lists whose names contain no quote character. -/
lemma decode_encode (l : List String) (hne : l ≠ [])
    (hq : ∀ a ∈ l, squoteChar ∉ a.data) :
    decodeActions (encodeActions l) = l := by
  have h1 : decodeActions (encodeActions l) =
      parseElems ((pyJoin (squoteStr ++ "," ++ squoteStr) l).data ++ [squoteChar, ']']) 0 "" := by
    simp [decodeActions, encodeActions, squoteStr, String.data_append]
  rw [h1, parse_join l hne hq]

/-! ## NaN propagation and min/argmin lemmas -/

lemma isnan_iff (v : Fl) : v.isnan = true ↔ v = Fl.nan := by
  cases v <;> simp [Fl.isnan]

lemma sub_nan_right (a : Fl) : a.sub Fl.nan = Fl.nan := by cases a <;> rfl

lemma nan_sub (a : Fl) : Fl.nan.sub a = Fl.nan := by cases a <;> rfl

lemma mul_nan_right (a : Fl) : a.mul Fl.nan = Fl.nan := by cases a <;> rfl

lemma nan_mul (a : Fl) : Fl.nan.mul a = Fl.nan := by cases a <;> rfl

lemma add_nan_right (a : Fl) : a.add Fl.nan = Fl.nan := by cases a <;> rfl

lemma nan_add (a : Fl) : Fl.nan.add a = Fl.nan := by cases a <;> rfl

lemma le_nan_left (x : Fl) : Fl.le Fl.nan x = false := by cases x <;> rfl

/-- One distance entry is NaN as soon as any of the four coordinates is. -/
lemma deltaR_elem_nan (s1 s2 qx qy : Fl)
    (h : s1.isnan = true ∨ s2.isnan = true ∨ qx.isnan = true ∨ qy.isnan = true) :
    Fl.sqrtF (((s1.sub qx).mul (s1.sub qx)).add ((s2.sub qy).mul (s2.sub qy))) = Fl.nan := by
  rcases h with h | h | h | h
  · rw [isnan_iff] at h; subst h
    rw [nan_sub, nan_mul, nan_add]; rfl
  · rw [isnan_iff] at h; subst h
    rw [nan_sub, nan_mul, add_nan_right]; rfl
  · rw [isnan_iff] at h; subst h
    rw [sub_nan_right, nan_mul, nan_add]; rfl
  · rw [isnan_iff] at h; subst h
    rw [sub_nan_right, nan_mul, add_nan_right]; rfl

/-- All distance entries are NaN when a query coordinate is NaN. -/
lemma deltaRList_nan_query (xs ys : List Fl) (qx qy : Fl)
    (h : (qx.isnan || qy.isnan) = true) :
    ∀ v ∈ deltaRList xs ys qx qy, v = Fl.nan := by
  intro v hv
  unfold deltaRList at hv
  obtain ⟨s, -, rfl⟩ := List.mem_map.mp hv
  rcases Bool.or_eq_true_iff.mp h with hx | hy
  · exact deltaR_elem_nan _ _ _ _ (Or.inr (Or.inr (Or.inl hx)))
  · exact deltaR_elem_nan _ _ _ _ (Or.inr (Or.inr (Or.inr hy)))

/-- Some distance entry is NaN when a stored coordinate is NaN. -/
lemma deltaRList_nan_stored (xs ys : List Fl) (qx qy : Fl) (k : Nat)
    (hk : k < xs.length) (hk' : k < ys.length)
    (h : ((xs.getD k Fl.nan).isnan || (ys.getD k Fl.nan).isnan) = true) :
    ∃ v ∈ deltaRList xs ys qx qy, v = Fl.nan := by
  have hkz : k < (xs.zip ys).length := by
    rw [List.length_zip]; omega
  refine ⟨_, List.mem_map_of_mem _ (List.getElem_mem hkz), ?_⟩
  rw [List.getElem_zip]
  rw [List.getD_eq_getElem xs Fl.nan hk, List.getD_eq_getElem ys Fl.nan hk'] at h
  rcases Bool.or_eq_true_iff.mp h with hx | hy
  · exact deltaR_elem_nan _ _ _ _ (Or.inl hx)
  · exact deltaR_elem_nan _ _ _ _ (Or.inr (Or.inl hy))

/-- `np.min` over a list containing a NaN (or started from a NaN best) is
NaN. -/
lemma minBestAux_nan : ∀ (l : List Fl) (i : Nat) (b : Option (Nat × Fl)),
    ((∃ v ∈ l, v = Fl.nan) ∨ (∃ p, b = some p ∧ p.2 = Fl.nan)) →
    ∃ p, minBestAux l i b = some p ∧ p.2 = Fl.nan
  | [], _, b, h => by
      rcases h with h | h
      · obtain ⟨v, hv, -⟩ := h; exact absurd hv (List.not_mem_nil v)
      · obtain ⟨p, rfl, hp⟩ := h; exact ⟨p, rfl, hp⟩
  | v :: rest, i, none, h => by
      show ∃ p, minBestAux rest (i + 1) (some (i, v)) = some p ∧ p.2 = Fl.nan
      by_cases hv : v = Fl.nan
      · exact minBestAux_nan rest (i + 1) _ (Or.inr ⟨(i, v), rfl, hv⟩)
      · refine minBestAux_nan rest (i + 1) _ (Or.inl ?_)
        rcases h with h | h
        · obtain ⟨w, hw, hwn⟩ := h
          subst hwn
          rcases List.mem_cons.mp hw with hvv | hw'
          · exact absurd hvv.symm hv
          · exact ⟨Fl.nan, hw', rfl⟩
        · obtain ⟨p, hp, -⟩ := h; exact absurd hp (by simp)
  | v :: rest, i, some jb, h => by
      by_cases hbb : jb.2.isnan = true
      · have hstep : minBestAux (v :: rest) i (some jb) =
            minBestAux rest (i + 1) (some jb) := by
          rw [minBestAux.eq_def]
          simp [hbb]
        rw [hstep]
        exact minBestAux_nan rest (i + 1) _ (Or.inr ⟨jb, rfl, (isnan_iff _).mp hbb⟩)
      · by_cases hv : v.isnan = true
        · have hstep : minBestAux (v :: rest) i (some jb) =
              minBestAux rest (i + 1) (some (i, v)) := by
            rw [minBestAux.eq_def]
            simp [hbb, hv]
          rw [hstep]
          exact minBestAux_nan rest (i + 1) _ (Or.inr ⟨(i, v), rfl, (isnan_iff _).mp hv⟩)
        · have hrest : ∃ w ∈ rest, w = Fl.nan := by
            rcases h with h | h
            · obtain ⟨w, hw, hwn⟩ := h
              subst hwn
              rcases List.mem_cons.mp hw with hvv | hw'
              · rw [← hvv] at hv; exact absurd rfl hv
              · exact ⟨Fl.nan, hw', rfl⟩
            · obtain ⟨p, hp, hp2⟩ := h
              have hj : jb = p := by injection hp
              rw [hj, hp2] at hbb
              exact absurd rfl hbb
          by_cases hle : Fl.le jb.2 v = true
          · have hstep : minBestAux (v :: rest) i (some jb) =
                minBestAux rest (i + 1) (some jb) := by
              rw [minBestAux.eq_def]
              simp [hbb, hv, hle]
            rw [hstep]
            exact minBestAux_nan rest (i + 1) _ (Or.inl hrest)
          · have hstep : minBestAux (v :: rest) i (some jb) =
                minBestAux rest (i + 1) (some (i, v)) := by
              rw [minBestAux.eq_def]
              simp [hbb, hv, hle]
            rw [hstep]
            exact minBestAux_nan rest (i + 1) _ (Or.inl hrest)

/-- `np.min` of a list containing NaN is NaN. -/
lemma minF_nan (l : List Fl) (h : ∃ v ∈ l, v = Fl.nan) : minF l = Fl.nan := by
  obtain ⟨p, hp, hnan⟩ := minBestAux_nan l 0 none (Or.inl h)
  unfold minF
  rw [hp]
  exact hnan

/-! ## exceptMap lemmas -/

instance {ε α : Type} [DecidableEq ε] [DecidableEq α] : DecidableEq (Except ε α) := fun a b =>
  match a, b with
  | .error e, .error f =>
      if h : e = f then isTrue (congrArg Except.error h)
      else isFalse (fun hh => h (Except.error.inj hh))
  | .ok v, .ok w =>
      if h : v = w then isTrue (congrArg Except.ok h)
      else isFalse (fun hh => h (Except.ok.inj hh))
  | .error _, .ok _ => isFalse (fun hh => Except.noConfusion hh)
  | .ok _, .error _ => isFalse (fun hh => Except.noConfusion hh)

lemma exceptMap_cons {α β : Type} (f : α → Except String β) (a : α) (rest : List α) :
    exceptMap f (a :: rest) =
      match f a with
      | .error e => .error e
      | .ok b =>
          match exceptMap f rest with
          | .error e => .error e
          | .ok bs => .ok (b :: bs) := by
  rw [exceptMap.eq_def]

lemma exceptMap_ok {α β : Type} (f : α → Except String β) (g : α → β) :
    ∀ (l : List α), (∀ a ∈ l, f a = .ok (g a)) → exceptMap f l = .ok (l.map g)
  | [], _ => rfl
  | a :: rest, h => by
      rw [exceptMap_cons, h a (List.mem_cons_self a rest),
        exceptMap_ok f g rest (fun b hb => h b (List.mem_cons_of_mem a hb))]
      rfl

lemma exceptMap_error {α β : Type} (f : α → Except String β) :
    ∀ (l : List α) (a : α), a ∈ l → (∃ e, f a = Except.error e) →
      ∃ e, exceptMap f l = Except.error e
  | [], a, ha, _ => absurd ha (List.not_mem_nil a)
  | b :: rest, a, ha, he => by
      rw [exceptMap_cons]
      rcases hfb : f b with e | v
      · exact ⟨e, rfl⟩
      · rcases List.mem_cons.mp ha with rfl | ha'
        · obtain ⟨e, he'⟩ := he
          rw [hfb] at he'
          exact absurd he' (by simp)
        · obtain ⟨e, hrest⟩ := exceptMap_error f rest a ha' he
          rw [hrest]
          exact ⟨e, rfl⟩

/-! ## Spec-side nearest neighbour

Following the spec's words ("the stored pixel whose (X, Y) is nearest in
Euclidean pixel distance"): squared Euclidean distances over the exact
rationals, with first-minimum tie-breaking.  The refinement theorems relate
the code's `nanargmin`/`nanmin` over `√(ΔX²+ΔY²)` to these. -/

/-- Squared Euclidean distances from the query pixel to every stored pixel. -/
def sqDistsQ (xs ys : List ℚ) (qx qy : ℚ) : List ℚ :=
  (xs.zip ys).map (fun s => (s.1 - qx) * (s.1 - qx) + (s.2 - qy) * (s.2 - qy))

/-- First-minimum scan over the exact rationals (mirror of `nanBestAux`). -/
def argminQAux : List ℚ → Nat → Option (Nat × ℚ) → Option (Nat × ℚ)
  | [], _, best => best
  | v :: rest, i, none => argminQAux rest (i + 1) (some (i, v))
  | v :: rest, i, some (j, b) =>
      if b ≤ v then argminQAux rest (i + 1) (some (j, b))
      else argminQAux rest (i + 1) (some (i, v))

/-- Index of the first stored pixel attaining the minimal squared distance. -/
def nearestIdx (l : List ℚ) : Nat :=
  match argminQAux l 0 none with
  | some jb => jb.1
  | none => 0

/-- The minimal squared distance itself. -/
def minSqDist (l : List ℚ) : ℚ :=
  match argminQAux l 0 none with
  | some jb => jb.2
  | none => 0

lemma sqrtF_fin_isnan (q : ℚ) (hq : 0 ≤ q) : (Fl.sqrtF (Fl.fin q)).isnan = false := by
  rw [sqrtF_fin q hq]
  by_cases h : isSqRat q <;> simp [h, Fl.isnan]

lemma argminQAux_some : ∀ (qs : List ℚ) (i : Nat) (p : Nat × ℚ),
    ∃ p', argminQAux qs i (some p) = some p'
  | [], _, p => ⟨p, rfl⟩
  | v :: rest, i, p => by
      obtain ⟨j, b⟩ := p
      show ∃ p', (if b ≤ v then argminQAux rest (i + 1) (some (j, b))
                  else argminQAux rest (i + 1) (some (i, v))) = some p'
      by_cases h : b ≤ v
      · rw [if_pos h]; exact argminQAux_some rest (i + 1) (j, b)
      · rw [if_neg h]; exact argminQAux_some rest (i + 1) (i, v)

lemma argminQAux_mem : ∀ (qs : List ℚ) (i : Nat) (b : Option (Nat × ℚ)) (p : Nat × ℚ),
    argminQAux qs i b = some p → p.2 ∈ qs ∨ (∃ p0, b = some p0 ∧ p.2 = p0.2)
  | [], _, b, p, h => Or.inr ⟨p, h, rfl⟩
  | v :: rest, i, none, p, h => by
      have h' : argminQAux rest (i + 1) (some (i, v)) = some p := h
      rcases argminQAux_mem rest (i + 1) (some (i, v)) p h' with hm | ⟨p0, hp0, hv⟩
      · exact Or.inl (List.mem_cons_of_mem v hm)
      · cases hp0
        rw [hv]
        exact Or.inl (List.mem_cons_self v rest)
  | v :: rest, i, some (j, b0), p, h => by
      have h' : (if b0 ≤ v then argminQAux rest (i + 1) (some (j, b0))
                 else argminQAux rest (i + 1) (some (i, v))) = some p := h
      by_cases hle : b0 ≤ v
      · rw [if_pos hle] at h'
        rcases argminQAux_mem rest (i + 1) (some (j, b0)) p h' with hm | ⟨p0, hp0, hv⟩
        · exact Or.inl (List.mem_cons_of_mem v hm)
        · cases hp0
          exact Or.inr ⟨(j, b0), rfl, hv⟩
      · rw [if_neg hle] at h'
        rcases argminQAux_mem rest (i + 1) (some (i, v)) p h' with hm | ⟨p0, hp0, hv⟩
        · exact Or.inl (List.mem_cons_of_mem v hm)
        · cases hp0
          rw [hv]
          exact Or.inl (List.mem_cons_self v rest)

lemma argminQ_eq (qs : List ℚ) (hne : qs ≠ []) :
    argminQAux qs 0 none = some (nearestIdx qs, minSqDist qs) := by
  cases qs with
  | nil => exact absurd rfl hne
  | cons v rest =>
      obtain ⟨p', hp'⟩ := argminQAux_some rest 1 (0, v)
      have h0 : argminQAux (v :: rest) 0 none = argminQAux rest 1 (some (0, v)) := rfl
      unfold nearestIdx minSqDist
      rw [h0, hp']

lemma minSqDist_mem (qs : List ℚ) (hne : qs ≠ []) : minSqDist qs ∈ qs := by
  have h := argminQ_eq qs hne
  rcases argminQAux_mem qs 0 none _ h with hm | ⟨p0, hp0, -⟩
  · exact hm
  · exact absurd hp0 (by simp)

/-- The code's NaN-skipping minimum scan over `√`-distances computes the
spec-side exact-rational minimum scan, index and value alike. -/
lemma nanBestAux_sqrt : ∀ (qs : List ℚ) (i : Nat) (bj : Option (Nat × ℚ)),
    (∀ q ∈ qs, 0 ≤ q) → (∀ p, bj = some p → 0 ≤ p.2) →
    nanBestAux (qs.map (fun q => Fl.sqrtF (Fl.fin q))) i
      (bj.map (fun p => (p.1, Fl.sqrtF (Fl.fin p.2)))) =
      (argminQAux qs i bj).map (fun p => (p.1, Fl.sqrtF (Fl.fin p.2)))
  | [], _, bj, _, _ => rfl
  | q :: qs', i, bj, hq, hbj => by
      have hq0 : 0 ≤ q := hq q (List.mem_cons_self q qs')
      have hq' : ∀ r ∈ qs', 0 ≤ r := fun r hr => hq r (List.mem_cons_of_mem q hr)
      have hnn : (Fl.sqrtF (Fl.fin q)).isnan = false := sqrtF_fin_isnan q hq0
      rcases bj with - | ⟨j, b⟩
      · have hstepL : nanBestAux
            (Fl.sqrtF (Fl.fin q) :: qs'.map (fun r => Fl.sqrtF (Fl.fin r))) i none =
            nanBestAux (qs'.map (fun r => Fl.sqrtF (Fl.fin r))) (i + 1)
              (some (i, Fl.sqrtF (Fl.fin q))) := by
          rw [nanBestAux.eq_def]
          simp [hnn]
        have hIH := nanBestAux_sqrt qs' (i + 1) (some (i, q)) hq'
          (fun p hp => by cases hp; exact hq0)
        simp only [List.map_cons, Option.map_none']
        rw [hstepL]
        simp only [Option.map_some'] at hIH
        rw [hIH]
        rfl
      · have hb0 : 0 ≤ b := hbj (j, b) rfl
        have hcmp : Fl.le (Fl.sqrtF (Fl.fin b)) (Fl.sqrtF (Fl.fin q)) = decide (b ≤ q) :=
          le_sqrtF_sqrtF b q hb0 hq0
        by_cases hle : b ≤ q
        · have hstepL : nanBestAux
              (Fl.sqrtF (Fl.fin q) :: qs'.map (fun r => Fl.sqrtF (Fl.fin r))) i
              (some (j, Fl.sqrtF (Fl.fin b))) =
              nanBestAux (qs'.map (fun r => Fl.sqrtF (Fl.fin r))) (i + 1)
                (some (j, Fl.sqrtF (Fl.fin b))) := by
            rw [nanBestAux.eq_def]
            simp [hnn, hcmp, hle]
          have hIH := nanBestAux_sqrt qs' (i + 1) (some (j, b)) hq'
            (fun p hp => by cases hp; exact hb0)
          simp only [List.map_cons, Option.map_some']
          rw [hstepL]
          simp only [Option.map_some'] at hIH
          rw [hIH]
          have hstepR : argminQAux (q :: qs') i (some (j, b)) =
              argminQAux qs' (i + 1) (some (j, b)) := by
            show (if b ≤ q then argminQAux qs' (i + 1) (some (j, b))
                  else argminQAux qs' (i + 1) (some (i, q))) = _
            rw [if_pos hle]
          rw [hstepR]
        · have hstepL : nanBestAux
              (Fl.sqrtF (Fl.fin q) :: qs'.map (fun r => Fl.sqrtF (Fl.fin r))) i
              (some (j, Fl.sqrtF (Fl.fin b))) =
              nanBestAux (qs'.map (fun r => Fl.sqrtF (Fl.fin r))) (i + 1)
                (some (i, Fl.sqrtF (Fl.fin q))) := by
            rw [nanBestAux.eq_def]
            simp [hnn, hcmp, hle]
          have hIH := nanBestAux_sqrt qs' (i + 1) (some (i, q)) hq'
            (fun p hp => by cases hp; exact hq0)
          simp only [List.map_cons, Option.map_some']
          rw [hstepL]
          simp only [Option.map_some'] at hIH
          rw [hIH]
          have hstepR : argminQAux (q :: qs') i (some (j, b)) =
              argminQAux qs' (i + 1) (some (i, q)) := by
            show (if b ≤ q then argminQAux qs' (i + 1) (some (j, b))
                  else argminQAux qs' (i + 1) (some (i, q))) = _
            rw [if_neg hle]
          rw [hstepR]

lemma nanmin_sqrt (qs : List ℚ) (hq : ∀ q ∈ qs, 0 ≤ q) (hne : qs ≠ []) :
    nanmin (qs.map (fun q => Fl.sqrtF (Fl.fin q))) = Fl.sqrtF (Fl.fin (minSqDist qs)) := by
  have h := nanBestAux_sqrt qs 0 none hq (fun p hp => by simp at hp)
  simp only [Option.map_none'] at h
  unfold nanmin
  rw [h, argminQ_eq qs hne]
  rfl

lemma nanargmin_sqrt (qs : List ℚ) (hq : ∀ q ∈ qs, 0 ≤ q) (hne : qs ≠ []) :
    nanargmin (qs.map (fun q => Fl.sqrtF (Fl.fin q))) = nearestIdx qs := by
  have h := nanBestAux_sqrt qs 0 none hq (fun p hp => by simp at hp)
  simp only [Option.map_none'] at h
  unfold nanargmin
  rw [h, argminQ_eq qs hne]
  rfl

lemma fin_add (a b : ℚ) : (Fl.fin a).add (Fl.fin b) = Fl.fin (a + b) := rfl

lemma fin_mul (a b : ℚ) : (Fl.fin a).mul (Fl.fin b) = Fl.fin (a * b) := rfl

lemma fin_sub (a b : ℚ) : (Fl.fin a).sub (Fl.fin b) = Fl.fin (a - b) := by
  show (Fl.fin a).add (Fl.fin (-b)) = Fl.fin (a - b)
  rw [fin_add, ← sub_eq_add_neg]

/-- On all-rational stored coordinates and a rational query pixel, the
code's distance list is exactly the `√` image of the squared-distance
list. -/
lemma deltaRList_map_fin (xsq ysq : List ℚ) (qx qy : ℚ) :
    deltaRList (xsq.map Fl.fin) (ysq.map Fl.fin) (Fl.fin qx) (Fl.fin qy) =
      (sqDistsQ xsq ysq qx qy).map (fun q => Fl.sqrtF (Fl.fin q)) := by
  unfold deltaRList sqDistsQ
  rw [List.zip_map, List.map_map, List.map_map]
  refine List.map_congr_left ?_
  intro p hp
  simp only [Function.comp_apply, Prod.map_apply, Prod.map_fst, Prod.map_snd]
  rw [fin_sub, fin_mul, fin_sub, fin_mul, fin_add]

lemma sqDistsQ_nonneg (xsq ysq : List ℚ) (qx qy : ℚ) :
    ∀ q ∈ sqDistsQ xsq ysq qx qy, 0 ≤ q := by
  intro q hq
  unfold sqDistsQ at hq
  obtain ⟨p, -, rfl⟩ := List.mem_map.mp hq
  exact add_nonneg (mul_self_nonneg _) (mul_self_nonneg _)

/-! ## Concrete fixtures (used by witnesses and counterexamples) -/

def trTest : CoordTransformer :=
  { transform_actions := ["flip_ud"], x_pixels := 100, y_pixels := 50, pixel_aspectratio := 1 }

def frTest : FitResults :=
  { get_pupilpos := fun _ _ => (Fl.fin 0, Fl.fin 0, Fl.fin 0)
    get_los_direction := fun _ _ => (Fl.fin 1, Fl.fin 0, Fl.fin 0)
    orig_to_display := fun a b => (a, b)
    transform := trTest }

/-- An intersector that always reports the same finite hit point. -/
def locHit : Locator := fun _ _ => some (Fl.fin 1, Fl.fin 2, Fl.fin 3)

/-- An intersector that never reports a hit. -/
def locMiss : Locator := fun _ _ => none

/-! ## The claims -/

/-- C1: for every input pixel coordinate arrays `x` and `y` of any common
shape `S`, `raycast_pixels` returns a `RayData` whose `ray_start_coords`
and `ray_end_coords` have shape `S + (3,)` (here: a `Vec3`-valued array of
shape `S`, so its numpy shape is `S ++ [3]`) and whose stored `x` and `y`
pixel-coordinate arrays have shape `S`. -/
theorem C1_shape_preservation (fr : FitResults) (loc : Locator) (L : Fl)
    (x y : NDArray Fl) (inds : List Nat) (rd : RayData)
    (hsh : x.shape = y.shape) (hperm : inds.Perm (List.range x.shape.prod))
    (hok : raycast_pixels ⟨some fr, some loc, L⟩ x y .display inds = Except.ok rd) :
    rd.ray_start_coords.shape ++ [3] = x.shape ++ [3] ∧
    rd.ray_end_coords.shape ++ [3] = x.shape ++ [3] ∧
    (∃ ax, rd.x = some ax ∧ ax.shape = x.shape) ∧
    (∃ ay, rd.y = some ay ∧ ay.shape = x.shape) := by
  rw [raycast_pixels_eq fr loc L x y .display inds hsh hperm] at hok
  injection hok with hok
  subst hok
  exact ⟨rfl, rfl, ⟨_, rfl, rfl⟩, ⟨_, rfl, rfl⟩⟩

def c1_x : NDArray Fl := ⟨[2, 1], [Fl.fin 1, Fl.fin 2]⟩

def c1_y : NDArray Fl := ⟨[2, 1], [Fl.fin 3, Fl.fin 4]⟩

theorem C1_shape_preservation_witness :
    raycast_pixels ⟨some frTest, some locHit, Fl.fin 10⟩ c1_x c1_y .display [1, 0] =
      Except.ok (raycastExpected frTest locHit (Fl.fin 10) c1_x c1_y c1_x c1_y) ∧
    (raycastExpected frTest locHit (Fl.fin 10) c1_x c1_y c1_x c1_y).ray_start_coords.shape
      ++ [3] = [2, 1] ++ [3] ∧
    (raycastExpected frTest locHit (Fl.fin 10) c1_x c1_y c1_x c1_y).ray_end_coords.shape
      ++ [3] = [2, 1] ++ [3] := by
  have hok : raycast_pixels ⟨some frTest, some locHit, Fl.fin 10⟩ c1_x c1_y .display [1, 0] =
      Except.ok (raycastExpected frTest locHit (Fl.fin 10) c1_x c1_y c1_x c1_y) :=
    raycast_pixels_eq frTest locHit (Fl.fin 10) c1_x c1_y .display [1, 0] rfl (by decide)
  have h := C1_shape_preservation frTest locHit (Fl.fin 10) c1_x c1_y [1, 0] _ rfl
    (by decide) hok
  exact ⟨hok, h.1, h.2.1⟩

/-- C2 counterexample: the claim says a pixel is invalid iff a coordinate is
non-finite, and that every such pixel is excluded and NaN-filled.  But the
code's mask (line 106) tests `np.isnan` only: a pixel with an infinite
coordinate (`+∞` is not finite) is still cast, and with an always-hit
intersector its ray end is the finite hit point, not NaN. -/
theorem C2_counterexample :
    Fl.isfinite Fl.pinf = false ∧
    (raycast_pixels ⟨some frTest, some locHit, Fl.fin 10⟩ ⟨[1], [Fl.pinf]⟩
        ⟨[1], [Fl.fin 0]⟩ .display [0]).map
      (fun rd => rd.ray_end_coords.data.getD 0 nan3) =
      Except.ok (Fl.fin 1, Fl.fin 2, Fl.fin 3) ∧
    (Fl.fin 1, Fl.fin 2, Fl.fin 3) ≠ nan3 := by
  refine ⟨rfl, by decide, by decide⟩

/-- C2 (amended): in `raycast_pixels` with explicit `x` and `y` arrays, a
pixel is treated as invalid iff either of its coordinates is NaN; every
invalid pixel is excluded from casting and its ray start/end entries are
all-NaN and its stored x/y entries are NaN, at its original (C-order)
position; every other pixel keeps its input coordinates and receives
finite ray start/end given a finite-valued geometry source and a
SurfaceIntersector that always reports a finite hit. -/
theorem C2_nan_validity (fr : FitResults) (loc : Locator) (L : Fl) (x y : NDArray Fl)
    (inds : List Nat) (rd : RayData)
    (hsh : x.shape = y.shape) (hperm : inds.Perm (List.range x.shape.prod))
    (hpupil : ∀ a b, vecFinite (fr.get_pupilpos a b) = true)
    (hhit : ∀ s e, ∃ p, loc s e = some p ∧ vecFinite p = true)
    (hok : raycast_pixels ⟨some fr, some loc, L⟩ x y .display inds = Except.ok rd) :
    ∀ m, m < x.shape.prod →
      (((x.data.getD m Fl.nan).isnan || (y.data.getD m Fl.nan).isnan) = true →
        rd.ray_start_coords.data.getD m nan3 = nan3 ∧
        rd.ray_end_coords.data.getD m nan3 = nan3 ∧
        (∃ ax, rd.x = some ax ∧ ax.data.getD m Fl.nan = Fl.nan) ∧
        (∃ ay, rd.y = some ay ∧ ay.data.getD m Fl.nan = Fl.nan)) ∧
      (((x.data.getD m Fl.nan).isnan || (y.data.getD m Fl.nan).isnan) = false →
        vecFinite (rd.ray_start_coords.data.getD m nan3) = true ∧
        vecFinite (rd.ray_end_coords.data.getD m nan3) = true ∧
        (∃ ax, rd.x = some ax ∧ ax.data.getD m Fl.nan = x.data.getD m Fl.nan) ∧
        (∃ ay, rd.y = some ay ∧ ay.data.getD m Fl.nan = y.data.getD m Fl.nan)) := by
  rw [raycast_pixels_eq fr loc L x y .display inds hsh hperm] at hok
  injection hok with hok
  subst hok
  rw [show (coordConv fr CoordsKind.display x y).1 = x from rfl,
    show (coordConv fr CoordsKind.display x y).2 = y from rfl]
  intro m hm
  constructor
  · intro hnan
    have hv : ¬ pixValidC x y m = true := by
      unfold pixValidC
      rcases Bool.or_eq_true_iff.mp hnan with h | h
      · rw [h]; simp
      · rw [h]; simp
    unfold raycastExpected
    simp only
    refine ⟨?_, ?_, ⟨_, rfl, ?_⟩, ⟨_, rfl, ?_⟩⟩ <;>
      rw [getD_range_map _ _ _ _ hm, if_neg hv]
  · intro hfin
    have hab : (x.data.getD m Fl.nan).isnan = false ∧ (y.data.getD m Fl.nan).isnan = false :=
      Bool.or_eq_false_iff.mp hfin
    have hv : pixValidC x y m = true := by
      unfold pixValidC
      rw [hab.1, hab.2]
      rfl
    unfold raycastExpected
    simp only
    refine ⟨?_, ?_, ⟨_, rfl, ?_⟩, ⟨_, rfl, ?_⟩⟩ <;>
      rw [getD_range_map _ _ _ _ hm, if_pos hv]
    · exact hpupil _ _
    · obtain ⟨p, hp, hfp⟩ := hhit (fr.get_pupilpos (x.data.getD m Fl.nan) (y.data.getD m Fl.nan))
        (vadd (fr.get_pupilpos (x.data.getD m Fl.nan) (y.data.getD m Fl.nan))
          (vsmul L (fr.get_los_direction (x.data.getD m Fl.nan) (y.data.getD m Fl.nan))))
      unfold pixelCastEnd castEnd
      dsimp only
      rw [hp]
      exact hfp

def c2_x : NDArray Fl := ⟨[2], [Fl.nan, Fl.fin 5]⟩

def c2_y : NDArray Fl := ⟨[2], [Fl.fin 0, Fl.fin 6]⟩

theorem C2_nan_validity_witness :
    ((c2_x.data.getD 0 Fl.nan).isnan || (c2_y.data.getD 0 Fl.nan).isnan) = true ∧
    ((c2_x.data.getD 1 Fl.nan).isnan || (c2_y.data.getD 1 Fl.nan).isnan) = false ∧
    (raycastExpected frTest locHit (Fl.fin 10) c2_x c2_y c2_x c2_y).ray_end_coords.data.getD 0 nan3
      = nan3 ∧
    vecFinite ((raycastExpected frTest locHit (Fl.fin 10) c2_x c2_y c2_x c2_y).ray_end_coords.data.getD 1 nan3)
      = true := by
  have hok : raycast_pixels ⟨some frTest, some locHit, Fl.fin 10⟩ c2_x c2_y .display [0, 1] =
      Except.ok (raycastExpected frTest locHit (Fl.fin 10) c2_x c2_y c2_x c2_y) :=
    raycast_pixels_eq frTest locHit (Fl.fin 10) c2_x c2_y .display [0, 1] rfl (by decide)
  have h := C2_nan_validity frTest locHit (Fl.fin 10) c2_x c2_y [0, 1] _ rfl (by decide)
    (fun a b => rfl) (fun s e => ⟨(Fl.fin 1, Fl.fin 2, Fl.fin 3), rfl, rfl⟩) hok
  exact ⟨by decide, by decide, ((h 0 (by decide)).1 (by decide)).2.1,
    ((h 1 (by decide)).2 (by decide)).2.1⟩

/-- C3: for every valid pixel for which the SurfaceIntersector reports no
hit, `raycast_pixels` records `ray_end_coords = ray_start_coords +
max_ray_length * direction` exactly, and the cast still succeeds (a
full-length miss is a valid result, not an error). -/
theorem C3_miss_policy (fr : FitResults) (loc : Locator) (L : Fl) (x y : NDArray Fl)
    (inds : List Nat) (hsh : x.shape = y.shape)
    (hperm : inds.Perm (List.range x.shape.prod)) :
    raycast_pixels ⟨some fr, some loc, L⟩ x y .display inds =
      Except.ok (raycastExpected fr loc L x y x y) ∧
    ∀ m, m < x.shape.prod → pixValidC x y m = true →
      loc (fr.get_pupilpos (x.data.getD m Fl.nan) (y.data.getD m Fl.nan))
        (vadd (fr.get_pupilpos (x.data.getD m Fl.nan) (y.data.getD m Fl.nan))
          (vsmul L (fr.get_los_direction (x.data.getD m Fl.nan) (y.data.getD m Fl.nan)))) = none →
      (raycastExpected fr loc L x y x y).ray_end_coords.data.getD m nan3 =
        vadd ((raycastExpected fr loc L x y x y).ray_start_coords.data.getD m nan3)
          (vsmul L (fr.get_los_direction (x.data.getD m Fl.nan) (y.data.getD m Fl.nan))) := by
  refine ⟨raycast_pixels_eq fr loc L x y .display inds hsh hperm, ?_⟩
  intro m hm hv hmiss
  unfold raycastExpected
  simp only
  rw [getD_range_map _ _ _ _ hm, getD_range_map _ _ _ _ hm, if_pos hv, if_pos hv]
  unfold pixelCastEnd castEnd
  dsimp only
  rw [hmiss]

def c3_x : NDArray Fl := ⟨[1], [Fl.fin 1]⟩

def c3_y : NDArray Fl := ⟨[1], [Fl.fin 2]⟩

theorem C3_miss_policy_witness :
    raycast_pixels ⟨some frTest, some locMiss, Fl.fin 10⟩ c3_x c3_y .display [0] =
      Except.ok (raycastExpected frTest locMiss (Fl.fin 10) c3_x c3_y c3_x c3_y) ∧
    (raycastExpected frTest locMiss (Fl.fin 10) c3_x c3_y c3_x c3_y).ray_end_coords.data.getD 0 nan3 =
      vadd ((raycastExpected frTest locMiss (Fl.fin 10) c3_x c3_y c3_x c3_y).ray_start_coords.data.getD 0 nan3)
        (vsmul (Fl.fin 10) (frTest.get_los_direction (c3_x.data.getD 0 Fl.nan) (c3_y.data.getD 0 Fl.nan))) := by
  have h := C3_miss_policy frTest locMiss (Fl.fin 10) c3_x c3_y [0] rfl (by decide)
  exact ⟨h.1, h.2 0 (by decide) (by decide) rfl⟩

/-- C8: two runs of `raycast_pixels` on the same inputs with different
visitation orders (any two permutations of the flat index range, covering
the identity order and any shuffle) return identical results: the random
permutation affects only the order of work, never the returned RayData. -/
theorem C8_order_independence (fr : FitResults) (loc : Locator) (L : Fl)
    (x y : NDArray Fl) (Coords : CoordsKind) (inds1 inds2 : List Nat)
    (hsh : x.shape = y.shape)
    (h1 : inds1.Perm (List.range x.shape.prod))
    (h2 : inds2.Perm (List.range x.shape.prod)) :
    raycast_pixels ⟨some fr, some loc, L⟩ x y Coords inds1 =
      raycast_pixels ⟨some fr, some loc, L⟩ x y Coords inds2 := by
  rw [raycast_pixels_eq fr loc L x y Coords inds1 hsh h1,
    raycast_pixels_eq fr loc L x y Coords inds2 hsh h2]

theorem C8_order_independence_witness :
    raycast_pixels ⟨some frTest, some locHit, Fl.fin 10⟩ c2_x c2_y .display [0, 1] =
      raycast_pixels ⟨some frTest, some locHit, Fl.fin 10⟩ c2_x c2_y .display [1, 0] :=
  C8_order_independence frTest locHit (Fl.fin 10) c2_x c2_y .display [0, 1] [1, 0]
    rfl (by decide) (by decide)

def c7_rd : RayData :=
  { ray_end_coords := ⟨[1, 1, 1], [(Fl.fin 1, Fl.fin 2, Fl.fin 3)]⟩
    ray_start_coords := ⟨[1, 1, 1], [(Fl.fin 0, Fl.fin 0, Fl.fin 0)]⟩
    binning := none
    transform := trTest
    fullchip := false
    x := some ⟨[1, 1, 1], [Fl.fin 4]⟩
    y := some ⟨[1, 1, 1], [Fl.fin 5]⟩
    ResultType := "PixelRayCast" }

/-- C7 counterexample: saving a RayData with 3-D pixel arrays does raise
the >2D error, but the destination is NOT left without a partial file —
`netcdf_file(path, mode ['w'])` at line 235 truncates it and the staged
header attributes are flushed into it, before the rank check at line 242
can raise. -/
theorem C7_counterexample :
    (RayData.saveFile c7_rd).2 =
      Except.error "Cannot save RayData with >2D x and y arrays!" ∧
    (RayData.saveFile c7_rd).1 =
      SaveEffect.truncatedHeader "CalCam_py output file"
        (encodeActions ["flip_ud"]) "PixelRayCast" := by decide

/-- C7 (amended): saving a `RayData` whose pixel-coordinate arrays have
more than 2 dimensions fails with the unsupported-shape error, but a
partial file IS written to the destination: the file was created or
truncated (destroying any previous content) and holds the staged header
attributes, because the raise at line 267 comes only after
`netcdf_file(path, mode ['w'])` and the attribute writes of lines
236-238. -/
theorem C7_unsupported_shape (rd : RayData) (sx sy : NDArray Fl)
    (hx : rd.x = some sx) (hy : rd.y = some sy) (hrank : 2 < sx.shape.length) :
    RayData.saveFile rd =
      (SaveEffect.truncatedHeader "CalCam_py output file"
        (encodeActions rd.transform.transform_actions) rd.ResultType,
       Except.error "Cannot save RayData with >2D x and y arrays!") := by
  unfold RayData.saveFile
  rw [hx, hy]
  dsimp only
  rw [if_neg (by omega)]

theorem C7_unsupported_shape_witness :
    RayData.saveFile c7_rd =
      (SaveEffect.truncatedHeader "CalCam_py output file"
        (encodeActions c7_rd.transform.transform_actions) c7_rd.ResultType,
       Except.error "Cannot save RayData with >2D x and y arrays!") :=
  C7_unsupported_shape c7_rd ⟨[1, 1, 1], [Fl.fin 4]⟩ ⟨[1, 1, 1], [Fl.fin 5]⟩ rfl rfl
    (by decide)

/-- The stored pixels (10,10) and (20,20) with ray lengths 5 and 7 of the
claim's concrete example. -/
def c4_rd : RayData :=
  { ray_end_coords := ⟨[2], [(Fl.fin 5, Fl.fin 0, Fl.fin 0), (Fl.fin 7, Fl.fin 0, Fl.fin 0)]⟩
    ray_start_coords := ⟨[2], [(Fl.fin 0, Fl.fin 0, Fl.fin 0), (Fl.fin 0, Fl.fin 0, Fl.fin 0)]⟩
    binning := none
    transform := trTest
    fullchip := false
    x := some ⟨[2], [Fl.fin 10, Fl.fin 20]⟩
    y := some ⟨[2], [Fl.fin 10, Fl.fin 20]⟩
    ResultType := "PixelRayCast" }

/-- C4: on a RayData with stored rational pixel coordinates, a
single-pixel query through `get_ray_lengths` returns the ray length of the
stored pixel nearest in (exact) Euclidean pixel distance — `nearestIdx` of
the squared distances, first index on ties — when that minimal distance is
within the tolerance (`minSq ≤ tol²`, i.e. `√minSq ≤ tol`), and fails with
the no-nearby-ray error otherwise; in particular, with stored pixels
(10,10), (20,20) of lengths 5 and 7, a query at (11,11) with tolerance 3
returns 5 and a query at (15,15) with tolerance 3 fails. -/
theorem C4_nearest_neighbor (dto : NDArray Fl → Option Int → NDArray Fl)
    (otd : Fl → Fl → Fl × Fl) (rd : RayData) (sh : List Nat) (xsq ysq : List ℚ)
    (hx : rd.x = some ⟨sh, xsq.map Fl.fin⟩) (hy : rd.y = some ⟨sh, ysq.map Fl.fin⟩)
    (hne : xsq ≠ []) (hlen : ysq.length = xsq.length)
    (qx qy tol : ℚ) (htol : 0 ≤ tol) :
    (minSqDist (sqDistsQ xsq ysq qx qy) ≤ tol * tol →
      get_ray_lengths dto otd rd (some ⟨[1], [Fl.fin qx]⟩) (some ⟨[1], [Fl.fin qy]⟩)
        (Fl.fin tol) .display =
        Except.ok ⟨[1], [(rayLengthFlat rd).getD (nearestIdx (sqDistsQ xsq ysq qx qy))
          (Fl.fin 0)]⟩) ∧
    (¬ minSqDist (sqDistsQ xsq ysq qx qy) ≤ tol * tol →
      get_ray_lengths dto otd rd (some ⟨[1], [Fl.fin qx]⟩) (some ⟨[1], [Fl.fin qy]⟩)
        (Fl.fin tol) .display =
        Except.error "No ray-traced pixel within PositionTol of requested pixel!") ∧
    get_ray_lengths (fun a _ => a) (fun a b => (a, b)) c4_rd
      (some ⟨[1], [Fl.fin 11]⟩) (some ⟨[1], [Fl.fin 11]⟩) (Fl.fin 3) .display =
      Except.ok ⟨[1], [Fl.fin 5]⟩ ∧
    get_ray_lengths (fun a _ => a) (fun a b => (a, b)) c4_rd
      (some ⟨[1], [Fl.fin 15]⟩) (some ⟨[1], [Fl.fin 15]⟩) (Fl.fin 3) .display =
      Except.error "No ray-traced pixel within PositionTol of requested pixel!" := by
  have hsne : sqDistsQ xsq ysq qx qy ≠ [] := by
    have hl : (sqDistsQ xsq ysq qx qy).length = xsq.length := by
      unfold sqDistsQ
      rw [List.length_map, List.length_zip, hlen, Nat.min_self]
    intro h
    apply hne
    have : xsq.length = 0 := by rw [← hl, h]; rfl
    exact List.eq_nil_of_length_eq_zero this
  have hmin0 : 0 ≤ minSqDist (sqDistsQ xsq ysq qx qy) :=
    sqDistsQ_nonneg xsq ysq qx qy _ (minSqDist_mem _ hsne)
  have hpoint : lengthQueryPoint (xsq.map Fl.fin) (ysq.map Fl.fin) (rayLengthFlat rd)
      (Fl.fin tol) (Fl.fin qx) (Fl.fin qy) =
      if minSqDist (sqDistsQ xsq ysq qx qy) ≤ tol * tol
      then .ok ((rayLengthFlat rd).getD (nearestIdx (sqDistsQ xsq ysq qx qy)) (Fl.fin 0))
      else .error "No ray-traced pixel within PositionTol of requested pixel!" := by
    unfold lengthQueryPoint
    rw [if_neg (by simp [Fl.isnan])]
    dsimp only
    rw [deltaRList_map_fin, nanmin_sqrt _ (sqDistsQ_nonneg xsq ysq qx qy) hsne,
      nanargmin_sqrt _ (sqDistsQ_nonneg xsq ysq qx qy) hsne,
      le_sqrtF_tol _ tol hmin0]
    by_cases hcond : minSqDist (sqDistsQ xsq ysq qx qy) ≤ tol * tol
    · rw [if_pos (by simp only [decide_eq_true_eq]; exact ⟨htol, hcond⟩), if_pos hcond]
    · rw [if_neg (by simp only [decide_eq_true_eq]; exact fun h => hcond h.2), if_neg hcond]
  have hcall : get_ray_lengths dto otd rd (some ⟨[1], [Fl.fin qx]⟩)
      (some ⟨[1], [Fl.fin qy]⟩) (Fl.fin tol) .display =
      match exceptMap (fun _ => lengthQueryPoint (xsq.map Fl.fin) (ysq.map Fl.fin)
          (rayLengthFlat rd) (Fl.fin tol) (Fl.fin qx) (Fl.fin qy)) [0] with
      | .ok RL => .ok (unflattenF Fl.nan [1] RL)
      | .error e => .error e := by
    unfold get_ray_lengths
    rw [hx, hy]
    rfl
  refine ⟨?_, ?_, by decide, by decide⟩
  · intro hcond
    rw [hcall, exceptMap_cons, hpoint, if_pos hcond]
    rfl
  · intro hcond
    rw [hcall, exceptMap_cons, hpoint, if_neg hcond]

theorem C4_nearest_neighbor_witness :
    get_ray_lengths (fun a _ => a) (fun a b => (a, b)) c4_rd
      (some ⟨[1], [Fl.fin 11]⟩) (some ⟨[1], [Fl.fin 11]⟩) (Fl.fin 3) .display =
      Except.ok ⟨[1], [(rayLengthFlat c4_rd).getD
        (nearestIdx (sqDistsQ [10, 20] [10, 20] 11 11)) (Fl.fin 0)]⟩ := by
  have h := C4_nearest_neighbor (fun a _ => a) (fun a b => (a, b)) c4_rd [2]
    [10, 20] [10, 20] rfl rfl (by decide) rfl 11 11 3 (by norm_num)
  exact h.1 (by decide)

/-! ## C5: persistence round trip -/

lemma flToInt_intCast (n : ℤ) : flToInt (Fl.fin (n : ℚ)) = n := by
  show (if (0 : ℚ) ≤ ((n : ℚ)) then ((n : ℚ)).floor else ((n : ℚ)).ceil) = n
  have hnum : ((n : ℚ)).num = n := Rat.num_intCast n
  have hden : ((n : ℚ)).den = 1 := Rat.den_intCast n
  by_cases h : (0 : ℚ) ≤ ((n : ℚ))
  · rw [if_pos h]
    simp [Rat.floor, hden, hnum]
  · rw [if_neg h]
    simp [Rat.ceil, hden, hnum]

/-- Writing integer-valued float pixel coordinates into the `i4` variable
and reading them back is the identity. -/
lemma map_flToInt_back (l : List Fl) (hint : ∀ v ∈ l, ∃ n : ℤ, v = Fl.fin (n : ℚ)) :
    (l.map flToInt).map (fun (z : ℤ) => Fl.fin (z : ℚ)) = l := by
  rw [List.map_map]
  have h : ∀ v ∈ l, ((fun z : ℤ => Fl.fin (z : ℚ)) ∘ flToInt) v = id v := by
    intro v hv
    obtain ⟨n, rfl⟩ := hint v hv
    show Fl.fin ((flToInt (Fl.fin (n : ℚ)) : ℚ)) = Fl.fin (n : ℚ)
    rw [flToInt_intCast]
  rw [List.map_congr_left h, List.map_id]

def c5_rd : RayData :=
  { ray_end_coords := ⟨[1], [(Fl.fin 1, Fl.fin 0, Fl.fin 0)]⟩
    ray_start_coords := ⟨[1], [(Fl.fin 0, Fl.fin 0, Fl.fin 0)]⟩
    binning := none
    transform := trTest
    fullchip := false
    x := some ⟨[1], [Fl.fin (mkRat 21 2)]⟩
    y := some ⟨[1], [Fl.fin 5]⟩
    ResultType := "PixelRayCast" }

/-- C5 counterexample: pixel coordinates are written into `i4` integer
netCDF variables, so the half-integer coordinate x = 21/2 comes back as 10
and the round trip does not reproduce the RayData exactly. -/
theorem C5_counterexample :
    (RayData.save c5_rd).map RayData.load ≠ Except.ok c5_rd := by decide

/-- C5 (amended): `load` after `save` reproduces the RayData exactly when
the pixel coordinates are integer-valued floats (the `i4` storage is then
lossless), the pixel arrays share a rank-1 or rank-2 shape, the binning is
`None` with `fullchip` unset or a nonzero value with `fullchip` set (the
file stores `None` as the integer 0), and the transform-action list is
nonempty with quote-free names (the attribute string survives `eval`);
float storage itself is idealized as exact. -/
theorem C5_roundtrip (rd : RayData) (sx sy : NDArray Fl)
    (hx : rd.x = some sx) (hy : rd.y = some sy)
    (hsh : sy.shape = sx.shape)
    (hrank : sx.shape.length = 2 ∨ sx.shape.length = 1)
    (hxint : ∀ v ∈ sx.data, ∃ n : ℤ, v = Fl.fin (n : ℚ))
    (hyint : ∀ v ∈ sy.data, ∃ n : ℤ, v = Fl.fin (n : ℚ))
    (hbin : (rd.binning = none ∧ rd.fullchip = false) ∨
      (∃ b, rd.binning = some b ∧ b ≠ 0 ∧ rd.fullchip = true))
    (hact : rd.transform.transform_actions ≠ [])
    (hquo : ∀ a ∈ rd.transform.transform_actions, squoteChar ∉ a.data) :
    ∃ nc, RayData.save rd = Except.ok nc ∧ RayData.load nc = rd := by
  obtain ⟨re, rs, bin, tr, fc, xo, yo, rty⟩ := rd
  obtain ⟨acts, xp, yp, par⟩ := tr
  obtain ⟨shx, dx⟩ := sx
  obtain ⟨shy, dy⟩ := sy
  dsimp only at hx hy hsh hrank hxint hyint hbin hact hquo
  subst hx
  subst hy
  rcases hbin with ⟨hb, hf⟩ | ⟨b, hb, hb0, hf⟩
  · subst hb
    subst hf
    refine ⟨{ history := "CalCam_py output file"
              image_transform_actions := encodeActions acts
              ResultType := rty
              RayEndCoords := re
              RayStartCoords := rs
              PixelXLocation := ⟨shx, dx.map flToInt⟩
              PixelYLocation := ⟨shx, dy.map flToInt⟩
              Binning := 0
              image_original_shape := (xp, yp)
              image_original_pixel_aspect := par }, ?_, ?_⟩
    · unfold RayData.save RayData.saveFile
      dsimp only
      rw [if_pos hrank]
    · unfold RayData.load
      dsimp only
      rw [if_pos rfl, if_pos rfl, decode_encode acts hact hquo,
        map_flToInt_back dx hxint, map_flToInt_back dy hyint, hsh]
  · subst hb
    subst hf
    refine ⟨{ history := "CalCam_py output file"
              image_transform_actions := encodeActions acts
              ResultType := rty
              RayEndCoords := re
              RayStartCoords := rs
              PixelXLocation := ⟨shx, dx.map flToInt⟩
              PixelYLocation := ⟨shx, dy.map flToInt⟩
              Binning := b
              image_original_shape := (xp, yp)
              image_original_pixel_aspect := par }, ?_, ?_⟩
    · unfold RayData.save RayData.saveFile
      dsimp only
      rw [if_pos hrank]
    · unfold RayData.load
      dsimp only
      rw [if_neg hb0, if_neg hb0, decode_encode acts hact hquo,
        map_flToInt_back dx hxint, map_flToInt_back dy hyint, hsh]

def c5w_rd : RayData :=
  { ray_end_coords := ⟨[1], [(Fl.fin 1, Fl.fin 2, Fl.fin 3)]⟩
    ray_start_coords := ⟨[1], [(Fl.fin 0, Fl.fin 0, Fl.fin 0)]⟩
    binning := none
    transform := trTest
    fullchip := false
    x := some ⟨[1], [Fl.fin 7]⟩
    y := some ⟨[1], [Fl.fin 8]⟩
    ResultType := "PixelRayCast" }

theorem C5_roundtrip_witness :
    ∃ nc, RayData.save c5w_rd = Except.ok nc ∧ RayData.load nc = c5w_rd :=
  C5_roundtrip c5w_rd ⟨[1], [Fl.fin 7]⟩ ⟨[1], [Fl.fin 8]⟩ rfl rfl rfl (Or.inr rfl)
    (fun v hv => ⟨7, by rw [List.mem_singleton.mp hv]; norm_num⟩)
    (fun v hv => ⟨8, by rw [List.mem_singleton.mp hv]; norm_num⟩)
    (Or.inl ⟨rfl, rfl⟩) (by decide) (by decide)

/-! ## C6: non-finite query coordinates -/

def c6_rd : RayData :=
  { ray_end_coords := ⟨[1], [(Fl.fin 1, Fl.fin 0, Fl.fin 0)]⟩
    ray_start_coords := ⟨[1], [(Fl.fin 0, Fl.fin 0, Fl.fin 0)]⟩
    binning := none
    transform := trTest
    fullchip := false
    x := some ⟨[1], [Fl.fin 0]⟩
    y := some ⟨[1], [Fl.fin 0]⟩
    ResultType := "PixelRayCast" }

/-- C6 counterexample: `get_ray_directions` does NOT share
`get_ray_lengths`' NaN guard — a NaN query coordinate makes the whole call
fail with the no-nearby-ray error instead of producing a NaN output slot. -/
theorem C6_counterexample :
    get_ray_directions (fun a _ => a) (fun a b => (a, b)) c6_rd
      (some ⟨[1], [Fl.nan]⟩) (some ⟨[1], [Fl.fin 0]⟩) (Fl.fin 3) CoordsKind.display =
      Except.error "No ray-traced pixel within PositionTol of requested pixel!" := by
  decide

/-- C6 (amended): `get_ray_lengths` maps a query pixel with a NaN (not
general non-finite) coordinate to a NaN output slot without failing, but
`get_ray_directions` has no such guard: with any stored pixel present, a
NaN query coordinate makes every distance NaN, the NaN-propagating
`np.min` is NaN, the tolerance comparison is false, and the no-nearby-ray
error is raised; moreover even in `get_ray_lengths` an infinite (non-NaN)
query coordinate raises rather than producing NaN. -/
theorem C6_nan_query :
    (∀ (xs ys RLf : List Fl) (tol qx qy : Fl), (qx.isnan || qy.isnan) = true →
       lengthQueryPoint xs ys RLf tol qx qy = Except.ok Fl.nan) ∧
    (∀ (x0 y0 : Fl) (xs ys dX dY dZ : List Fl) (tol qx qy : Fl),
       (qx.isnan || qy.isnan) = true →
       dirQueryPoint (x0 :: xs) (y0 :: ys) dX dY dZ tol qx qy =
         Except.error "No ray-traced pixel within PositionTol of requested pixel!") ∧
    lengthQueryPoint [Fl.fin 0] [Fl.fin 0] [Fl.fin 1] (Fl.fin 3) Fl.pinf (Fl.fin 0) =
      Except.error "No ray-traced pixel within PositionTol of requested pixel!" := by
  refine ⟨?_, ?_, by decide⟩
  · intro xs ys RLf tol qx qy h
    unfold lengthQueryPoint
    rw [if_pos h]
  · intro x0 y0 xs ys dX dY dZ tol qx qy h
    unfold dirQueryPoint
    dsimp only
    have hne : deltaRList (x0 :: xs) (y0 :: ys) qx qy ≠ [] := by
      unfold deltaRList
      rw [List.zip_cons_cons]
      simp
    obtain ⟨v, hv⟩ := List.exists_mem_of_ne_nil _ hne
    have hmin : minF (deltaRList (x0 :: xs) (y0 :: ys) qx qy) = Fl.nan :=
      minF_nan _ ⟨v, hv, deltaRList_nan_query _ _ _ _ h v hv⟩
    rw [hmin, le_nan_left, if_neg (by decide)]

theorem C6_nan_query_witness :
    lengthQueryPoint [Fl.fin 0] [Fl.fin 0] [Fl.fin 1] (Fl.fin 3) Fl.nan (Fl.fin 0) =
      Except.ok Fl.nan ∧
    dirQueryPoint [Fl.fin 0] [Fl.fin 0] [Fl.fin 1] [Fl.fin 0] [Fl.fin 0] (Fl.fin 3)
      Fl.nan (Fl.fin 0) =
      Except.error "No ray-traced pixel within PositionTol of requested pixel!" :=
  ⟨C6_nan_query.1 [Fl.fin 0] [Fl.fin 0] [Fl.fin 1] (Fl.fin 3) Fl.nan (Fl.fin 0) (by decide),
   C6_nan_query.2.1 (Fl.fin 0) (Fl.fin 0) [] [] [Fl.fin 1] [Fl.fin 0] [Fl.fin 0] (Fl.fin 3)
     Fl.nan (Fl.fin 0) (by decide)⟩

/-! ## C9: NaN stored pixels -/

def c9_rd : RayData :=
  { ray_end_coords := ⟨[2], [(Fl.fin 1, Fl.fin 0, Fl.fin 0), (Fl.fin 3, Fl.fin 0, Fl.fin 0)]⟩
    ray_start_coords := ⟨[2], [(Fl.fin 0, Fl.fin 0, Fl.fin 0), (Fl.fin 0, Fl.fin 0, Fl.fin 0)]⟩
    binning := none
    transform := trTest
    fullchip := false
    x := some ⟨[2], [Fl.nan, Fl.fin 10]⟩
    y := some ⟨[2], [Fl.fin 0, Fl.fin 20]⟩
    ResultType := "PixelRayCast" }

/-- C9: a NaN entry in the stored pixel coordinates (as produced for
invalid input pixels) makes every `get_ray_directions` coordinate query
fail with the no-nearby-ray error, whatever the query coordinates: the
NaN-propagating `np.min` makes the minimal distance NaN, which compares
false against the tolerance.  `get_ray_lengths` uses the NaN-skipping
`np.nanmin`/`np.nanargmin` and can still succeed on the same data. -/
theorem C9_stored_nan :
    (∀ (dto3 : NDArray Vec3 → Option Int → NDArray Vec3) (otd : Fl → Fl → Fl × Fl)
       (rd : RayData) (sx sy xa ya : NDArray Fl) (tol : Fl) (Coords : CoordsKind) (k : Nat),
       rd.x = some sx → rd.y = some sy →
       k < sx.data.length → k < sy.data.length →
       (sx.data.getD k Fl.nan).isnan = true →
       xa.shape = ya.shape → xa.shape.prod ≠ 0 →
       ∃ e, get_ray_directions dto3 otd rd (some xa) (some ya) tol Coords =
         Except.error e) ∧
    get_ray_lengths (fun a _ => a) (fun a b => (a, b)) c9_rd
      (some ⟨[1], [Fl.fin 10]⟩) (some ⟨[1], [Fl.fin 20]⟩) (Fl.fin 3) CoordsKind.display =
      Except.ok ⟨[1], [Fl.fin 3]⟩ := by
  refine ⟨?_, by decide⟩
  intro dto3 otd rd sx sy xa ya tol Coords k hx hy hkx hky hnan hsh hprod
  unfold get_ray_directions
  rw [hx, hy]
  dsimp only
  rw [if_pos hsh]
  have hfail : ∀ (qx qy : Fl),
      ∃ e, dirQueryPoint sx.data sy.data ((dirsFlat rd).map (fun v => v.1))
        ((dirsFlat rd).map (fun v => v.2.1)) ((dirsFlat rd).map (fun v => v.2.2))
        tol qx qy = Except.error e := by
    intro qx qy
    unfold dirQueryPoint
    dsimp only
    have hmin : minF (deltaRList sx.data sy.data qx qy) = Fl.nan :=
      minF_nan _ (deltaRList_nan_stored sx.data sy.data qx qy k hkx hky
        (by rw [hnan, Bool.true_or]))
    rw [hmin, le_nan_left]
    exact ⟨"No ray-traced pixel within PositionTol of requested pixel!",
      by rw [if_neg (by decide)]⟩
  have h0 : 0 ∈ List.range (convQuery otd Coords xa ya).1.shape.prod := by
    have hxq : (convQuery otd Coords xa ya).1.shape = xa.shape := by
      cases Coords <;> rfl
    rw [hxq, List.mem_range]
    exact Nat.pos_of_ne_zero hprod
  obtain ⟨e, he⟩ := exceptMap_error
    (fun n => dirQueryPoint sx.data sy.data ((dirsFlat rd).map (fun v => v.1))
      ((dirsFlat rd).map (fun v => v.2.1)) ((dirsFlat rd).map (fun v => v.2.2)) tol
      ((flattenF Fl.nan (convQuery otd Coords xa ya).1).getD n Fl.nan)
      ((flattenF Fl.nan (convQuery otd Coords xa ya).2).getD n Fl.nan))
    (List.range (convQuery otd Coords xa ya).1.shape.prod) 0 h0 (hfail _ _)
  exact ⟨e, by rw [he]⟩

theorem C9_stored_nan_witness :
    ∃ e, get_ray_directions (fun a _ => a) (fun a b => (a, b)) c9_rd
      (some ⟨[1], [Fl.fin 10]⟩) (some ⟨[1], [Fl.fin 20]⟩) (Fl.fin 3) CoordsKind.display =
      Except.error e :=
  C9_stored_nan.1 (fun a _ => a) (fun a b => (a, b)) c9_rd
    ⟨[2], [Fl.nan, Fl.fin 10]⟩ ⟨[2], [Fl.fin 0, Fl.fin 20]⟩
    ⟨[1], [Fl.fin 10]⟩ ⟨[1], [Fl.fin 20]⟩ (Fl.fin 3) CoordsKind.display 0
    rfl rfl (by decide) (by decide) (by decide) rfl (by decide)

/-! ## C10: unguarded division by the ray length -/

lemma zip_getElem {α β : Type} : ∀ (l1 : List α) (l2 : List β) (k : Nat) (a : α) (b : β),
    l1[k]? = some a → l2[k]? = some b → (l1.zip l2)[k]? = some (a, b)
  | [], _, _, _, _, h1, _ => by
      rw [List.getElem?_nil] at h1
      exact Option.noConfusion h1
  | _ :: _, [], _, _, _, _, h2 => by
      rw [List.getElem?_nil] at h2
      exact Option.noConfusion h2
  | x :: t1, y :: t2, 0, a, b, h1, h2 => by
      rw [List.getElem?_cons_zero] at h1 h2
      rw [List.zip_cons_cons, List.getElem?_cons_zero]
      injection h1 with h1
      injection h2 with h2
      rw [h1, h2]
  | x :: t1, y :: t2, k + 1, a, b, h1, h2 => by
      rw [List.getElem?_cons_succ] at h1 h2
      rw [List.zip_cons_cons, List.getElem?_cons_succ]
      exact zip_getElem t1 t2 k a b h1 h2

def c10_rd : RayData :=
  { ray_end_coords := ⟨[1], [(Fl.fin 1, Fl.fin 1, Fl.fin 1)]⟩
    ray_start_coords := ⟨[1], [(Fl.fin 1, Fl.fin 1, Fl.fin 1)]⟩
    binning := none
    transform := trTest
    fullchip := false
    x := some ⟨[1], [Fl.fin 0]⟩
    y := some ⟨[1], [Fl.fin 0]⟩
    ResultType := "PixelRayCast" }

/-- C10: `get_ray_directions` divides (rayEnd - rayStart) by the per-pixel
ray length with no zero guard: a stored pixel whose finite start equals
its end gets direction components 0/0 = NaN rather than an error, and a
matching query returns that NaN triple as a successful result. -/
theorem C10_zero_length_nan :
    (∀ (rd : RayData) (k : Nat) (a b c : ℚ),
       rd.ray_end_coords.data[k]? = some (Fl.fin a, Fl.fin b, Fl.fin c) →
       rd.ray_start_coords.data[k]? = some (Fl.fin a, Fl.fin b, Fl.fin c) →
       (dirsFlat rd)[k]? = some nan3) ∧
    get_ray_directions (fun a _ => a) (fun a b => (a, b)) c10_rd
      (some ⟨[1], [Fl.fin 0]⟩) (some ⟨[1], [Fl.fin 0]⟩) (Fl.fin 3) CoordsKind.display =
      Except.ok ⟨[1], [nan3]⟩ := by
  refine ⟨?_, by decide⟩
  intro rd k a b c he hs
  have hsub : ∀ t : ℚ, (Fl.fin t).sub (Fl.fin t) = Fl.fin 0 := by
    intro t
    show Fl.fin (t + -t) = Fl.fin 0
    rw [add_neg_cancel]
  have hz1 := zip_getElem _ _ k _ _ he hs
  have hL : (rayLengthFlat rd)[k]? = some (Fl.fin 0) := by
    unfold rayLengthFlat
    rw [List.getElem?_map, hz1, Option.map_some']
    refine congrArg some ?_
    dsimp only
    rw [hsub a, hsub b, hsub c]
    decide
  have hz2 := zip_getElem _ _ k _ _ hz1 hL
  unfold dirsFlat
  rw [List.getElem?_map, hz2, Option.map_some']
  refine congrArg some ?_
  dsimp only
  rw [hsub a, hsub b, hsub c]
  decide

theorem C10_zero_length_nan_witness :
    (dirsFlat c10_rd)[0]? = some nan3 :=
  C10_zero_length_nan.1 c10_rd 0 1 1 1 (by decide) (by decide)

end Raytrace
